import Mathlib

/-!
Verification of `fastyoutubeapi.py`, a YouTube audio-resolution proxy.

The development shallowly embeds the four core functions of the source:
`extract_video_id`, `fetch_from_piped`, `select_best_audio_stream` and the
`download_audio` route handler.  Strings are modelled as `List Char`,
parsed JSON documents as an inductive `Json` tree (the output of a JSON
parser is always a tree, so object identity never aliases there), and the
network as an oracle assigning an outcome to every (instance, attempt)
pair.  A separate heap-based model captures the strategy-3 structural
scan on documents with shared or cyclic references, where the `id()`
based visited set of the source matters.
-/

set_option maxRecDepth 10000

/-! ## Identifier extraction (`extract_video_id`) -/

/-- The id alphabet of the source's regexes: `[0-9A-Za-z_-]`. -/
def isIdChar (c : Char) : Bool :=
  c.isAlpha || c.isDigit || c == '_' || c == '-'

/-- ASCII whitespace stripped by Python's `str.strip()` (the full Python
set also contains non-ASCII space characters; only the ends of the input
are affected, and whitespace is never an id character). -/
def isPySpace (c : Char) : Bool :=
  c == ' ' || c == '\t' || c == '\n' || c == '\r' ||
  c == '\x0b' || c == '\x0c'

/-- `str.strip()`: drop whitespace from both ends. -/
def pyStrip (s : List Char) : List Char :=
  ((s.dropWhile isPySpace).reverse.dropWhile isPySpace).reverse

/-- Matching `[0-9A-Za-z_-]{11}` at the current position: the next 11
characters, when they exist and all lie in the id alphabet. -/
def takeId11 (s : List Char) : Option (List Char) :=
  let t := s.take 11
  if t.length = 11 && t.all isIdChar then some t else none

/-- `re.search` semantics: try the position matcher `m` at every
position from the left, first success wins. -/
def searchFirst (m : List Char → Option (List Char)) : List Char → Option (List Char)
  | [] => m []
  | c :: t =>
    match m (c :: t) with
    | some r => some r
    | none => searchFirst m t

/-- A literal followed by an 11-character id run, anchored at the
current position. -/
def litThenId (lit : List Char) (s : List Char) : Option (List Char) :=
  if lit.isPrefixOf s then takeId11 (s.drop lit.length) else none

/-- Position matcher for `(?:youtu\.be/)([0-9A-Za-z_-]{11})`. -/
def matchShort (s : List Char) : Option (List Char) :=
  litThenId ("youtu.be/".toList) s

/-- Position matcher for `[?&]v=([0-9A-Za-z_-]{11})`. -/
def matchQuery : List Char → Option (List Char)
  | [] => none
  | c :: rest =>
    if c == '?' || c == '&' then litThenId ("v=".toList) rest else none

/-- Position matcher for `(?:/embed/|/v/)([0-9A-Za-z_-]{11})`. -/
def matchEmbed (s : List Char) : Option (List Char) :=
  match litThenId ("/embed/".toList) s with
  | some r => some r
  | none => litThenId ("/v/".toList) s

/-- `extract_video_id`: the cascade of the source — falsy (empty) input,
full match of a raw id on the stripped input, then the four `re.search`
patterns in order. -/
def extract_video_id (input : List Char) : Option (List Char) :=
  if input.isEmpty then none
  else
    let s := pyStrip input
    if s.length = 11 && s.all isIdChar then some s
    else
      match searchFirst matchShort s with
      | some r => some r
      | none =>
        match searchFirst matchQuery s with
        | some r => some r
        | none =>
          match searchFirst matchEmbed s with
          | some r => some r
          | none => searchFirst takeId11 s

/-- Decidable scan: does the string contain 11 consecutive id
characters anywhere? -/
def hasRun11 : List Char → Bool
  | [] => false
  | c :: t => (takeId11 (c :: t)).isSome || hasRun11 t

example : extract_video_id ("dQw4w9WgXcQ".toList) = some ("dQw4w9WgXcQ".toList) := by decide
example : extract_video_id ("https://youtu.be/BddP6PYo2gs".toList) = some ("BddP6PYo2gs".toList) := by decide
example : extract_video_id ("https://www.youtube.com/watch?v=BddP6PYo2gs".toList) = some ("BddP6PYo2gs".toList) := by decide
example : extract_video_id ("not a url, no id".toList) = none := by decide
example : extract_video_id ("  dQw4w9WgXcQ  ".toList) = some ("dQw4w9WgXcQ".toList) := by decide

/-! ## Parsed JSON documents

`resp.json()` yields a tree of dicts, lists, strings, numbers, booleans
and nulls; `Json` is that tree. -/

inductive Json where
  | null
  | bool (b : Bool)
  | num (n : Int)
  | str (s : String)
  | arr (elems : List Json)
  | obj (fields : List (String × Json))

/-- Python truthiness of a JSON value (`if not data`, `s.get("url")`). -/
def jtruthy : Json → Bool
  | .null => false
  | .bool b => b
  | .num n => n != 0
  | .str s => s != ""
  | .arr l => !l.isEmpty
  | .obj fs => !fs.isEmpty

/-- `d.get(k)`: `None` (here `none`) when the key is missing or the value
is not a dict. -/
def Json.get? : Json → String → Option Json
  | .obj fs, k => (fs.find? (fun p => p.1 == k)).map (fun p => p.2)
  | _, _ => none

/-- `d.get(k)` with the missing-key `None` embedded as `Json.null`. -/
def jgetD (j : Json) (k : String) : Json := (j.get? k).getD .null

/-- Python `x or y` on JSON values. -/
def pyOrJ (a b : Json) : Json := if jtruthy a then a else b

/-- Truthiness of `d.get(k)`. -/
def truthyGet (j : Json) (k : String) : Bool := jtruthy (jgetD j k)

def Json.isObj : Json → Bool
  | .obj _ => true
  | _ => false

def Json.isArr : Json → Bool
  | .arr _ => true
  | _ => false

/-- `"title" in data` on a dict (and `isinstance(data, dict)`). -/
def isValidData (d : Json) : Bool :=
  d.isObj && (d.get? "title").isSome

/-! ## Stream selection (`select_best_audio_stream`) -/

/-- Numeric value of a score field, as used by the *totalized* model of
the selection (booleans and other non-numbers collapse to 0 here).
Python's `max` instead treats booleans as the integers 0/1 and raises
`TypeError` on other mixed-type comparisons; the exception-aware model
below (`pyGt`, `pyMaxByE`, `select_best_audio_streamE`) captures that
faithfully, and the claims sensitive to it are settled against that
model.  The totalized model is used only where the property at issue is
insensitive to the score function. -/
def jnum : Json → Int
  | .num n => n
  | _ => 0

/-- `s.get("bitrate") or s.get("contentLength") or 0`. -/
def jscore (s : Json) : Int :=
  jnum (pyOrJ (jgetD s "bitrate") (pyOrJ (jgetD s "contentLength") (.num 0)))

/-- Python `max(x :: t, key=key)`: the fold keeps the current best and
replaces it only on a strictly greater key, so the first maximal element
wins. -/
def pyMaxBy (key : Json → Int) : Json → List Json → Json
  | best, [] => best
  | best, x :: t => pyMaxBy key (if key x > key best then x else best) t

/-- Strategy-1 admission: `isinstance(s, dict) and s.get("url")`. -/
def cand1 (s : Json) : Bool := s.isObj && truthyGet s "url"

/-- `data.get("audioStreams") or []` restricted through
`isinstance(audio_streams, list)`: a non-list value yields `[]`, which
fails the nonemptiness test exactly as the isinstance check does. -/
def audioStreamsList (data : Json) : List Json :=
  match pyOrJ (jgetD data "audioStreams") (.arr []) with
  | .arr l => l
  | _ => []

/-- Strategy 1 of `select_best_audio_stream` (the `audioStreams` field). -/
def strategy1 (data : Json) : Option Json :=
  let l := audioStreamsList data
  if l.isEmpty then none
  else
    match l.filter cand1 with
    | [] => none
    | x :: t => some (pyMaxBy jscore x t)

/-- `s.get("mimeType", "")` as a string, in the *totalized* model: a
present non-string mimeType collapses to `""` here, whereas Python's
`.startswith` raises `AttributeError` (uncaught, HTTP 500) on it.  The
exception-aware `cand2E` / `is_audio_candidateE` below model that raise
faithfully; claims sensitive to it use them. -/
def mimeOf (s : Json) : String :=
  match s.get? "mimeType" with
  | some (.str m) => m
  | _ => ""

/-- Strategy-2 admission: dict with truthy `url` and
`mimeType.startswith("audio")`. -/
def cand2 (s : Json) : Bool :=
  s.isObj && truthyGet s "url" && ("audio".toList.isPrefixOf (mimeOf s).toList)

/-- `data.get(key) or []` through `isinstance(arr, list)`, as in
`audioStreamsList`. -/
def listAt (data : Json) (k : String) : List Json :=
  match pyOrJ (jgetD data k) (.arr []) with
  | .arr l => l
  | _ => []

def strategy2Keys : List String := ["adaptiveFormats", "streams", "formats"]

/-- Strategy 2: the loop over `adaptiveFormats` / `streams` / `formats`. -/
def strategy2Loop (data : Json) : List String → Option Json
  | [] => none
  | k :: rest =>
    let l := listAt data k
    if l.isEmpty then strategy2Loop data rest
    else
      match l.filter cand2 with
      | [] => strategy2Loop data rest
      | x :: t => some (pyMaxBy jscore x t)

def strategy2 (data : Json) : Option Json := strategy2Loop data strategy2Keys

/-- `"audio" in m` (substring). -/
def containsAudio : List Char → Bool
  | [] => ("audio".toList).isPrefixOf []
  | c :: t => ("audio".toList).isPrefixOf (c :: t) || containsAudio t

/-- `is_audio_candidate`: dict with truthy `url` and `"audio" in
(x.get("mimeType", "") or "")`. -/
def is_audio_candidate (x : Json) : Bool :=
  x.isObj && truthyGet x "url" && containsAudio (mimeOf x).toList

/-- The values of a node the scan iterates over (`node.values()` for a
dict, the items for a list, nothing for leaves). -/
def childVals : Json → List Json
  | .obj fs => fs.map (fun p => p.2)
  | .arr l => l
  | _ => []

/-- `isinstance(v, (dict, list))`: only containers are pushed. -/
def isContainer : Json → Bool
  | .obj _ => true
  | .arr _ => true
  | _ => false

mutual

/-- Size of a JSON tree, for the termination of the stack scan. -/
def Json.jsize : Json → Nat
  | .arr l => 1 + Json.jsizeList l
  | .obj fs => 1 + Json.jsizeFields fs
  | _ => 1

def Json.jsizeList : List Json → Nat
  | [] => 0
  | j :: t => Json.jsize j + Json.jsizeList t

def Json.jsizeFields : List (String × Json) → Nat
  | [] => 0
  | p :: t => Json.jsize p.2 + Json.jsizeFields t

end

theorem jsize_pos (j : Json) : 1 ≤ j.jsize := by
  cases j <;> simp [Json.jsize]

theorem jsizeList_append (a b : List Json) :
    Json.jsizeList (a ++ b) = Json.jsizeList a + Json.jsizeList b := by
  induction a with
  | nil => simp [Json.jsizeList]
  | cons x t ih => simp [Json.jsizeList, ih]; omega

theorem jsizeList_reverse (l : List Json) :
    Json.jsizeList l.reverse = Json.jsizeList l := by
  induction l with
  | nil => rfl
  | cons x t ih =>
    simp [List.reverse_cons, jsizeList_append, Json.jsizeList, ih]
    omega

theorem jsizeList_filter_le (p : Json → Bool) (l : List Json) :
    Json.jsizeList (l.filter p) ≤ Json.jsizeList l := by
  induction l with
  | nil => simp [Json.jsizeList]
  | cons x t ih =>
    by_cases h : p x = true
    · simp only [List.filter_cons, h, if_true, Json.jsizeList]
      omega
    · simp only [List.filter_cons, h, if_false, Bool.false_eq_true, ite_false,
        Json.jsizeList]
      have := jsize_pos x
      omega

theorem jsizeList_childVals_lt (j : Json) :
    Json.jsizeList (childVals j) < j.jsize := by
  cases j with
  | arr l => simp [childVals, Json.jsize]
  | obj fs =>
    simp only [childVals, Json.jsize]
    have : Json.jsizeList (fs.map (fun p => p.2)) = Json.jsizeFields fs := by
      induction fs with
      | nil => rfl
      | cons q t ih => simp [Json.jsizeList, Json.jsizeFields, ih]
    omega
  | null => simp [childVals, Json.jsize, Json.jsizeList]
  | bool b => simp [childVals, Json.jsize, Json.jsizeList]
  | num n => simp [childVals, Json.jsize, Json.jsizeList]
  | str s => simp [childVals, Json.jsize, Json.jsizeList]

/-- Strategy 3, the stack-driven structural scan, on tree documents.
The Python stack grows and shrinks at its right end; it is modelled
reversed, so `stack.append` / `stack.pop()` become cons / uncons at the
head.  A parsed JSON document is a tree whose nodes are pairwise
distinct objects, so the `id()`-based visited set of the source never
skips a node here and is omitted (the heap model below treats sharing
and cycles).  The source checks each value for candidacy before pushing
the next one and returns on the first hit, so pushes performed before an
early return are unobservable; finding first and then pushing is the
same function.  The fuel argument only makes the recursion structural;
`scanStackFuel_irrel` shows the loop never runs out of it. -/
def scanStackFuel : Nat → List Json → Option Json
  | _, [] => none
  | 0, _ :: _ => none
  | fuel + 1, node :: rest =>
    match (childVals node).find? is_audio_candidate with
    | some v => some v
    | none => scanStackFuel fuel (((childVals node).filter isContainer).reverse ++ rest)

/-- One scan step strictly shrinks the total size of the stack. -/
theorem scanStack_step_lt (node : Json) (rest : List Json) :
    Json.jsizeList (((childVals node).filter isContainer).reverse ++ rest) <
    Json.jsizeList (node :: rest) := by
  simp only [jsizeList_append, jsizeList_reverse, Json.jsizeList]
  have h1 := jsizeList_filter_le isContainer (childVals node)
  have h2 := jsizeList_childVals_lt node
  omega

/-- Any fuel at least the total stack size gives the same result: the
loop terminates before the fuel is consumed. -/
theorem scanStackFuel_irrel (fuel : Nat) :
    ∀ l fuel₂, Json.jsizeList l ≤ fuel → Json.jsizeList l ≤ fuel₂ →
      scanStackFuel fuel l = scanStackFuel fuel₂ l := by
  induction fuel using Nat.strong_induction_on with
  | _ fuel ih =>
    intro l fuel₂ h1 h2
    match l with
    | [] => cases fuel <;> cases fuel₂ <;> rfl
    | node :: rest =>
      have hpos : 1 ≤ Json.jsizeList (node :: rest) := by
        have := jsize_pos node
        simp [Json.jsizeList]; omega
      obtain ⟨f, rfl⟩ : ∃ f, fuel = f + 1 := ⟨fuel - 1, by omega⟩
      obtain ⟨f₂, rfl⟩ : ∃ f₂, fuel₂ = f₂ + 1 := ⟨fuel₂ - 1, by omega⟩
      simp only [scanStackFuel]
      cases hfind : (childVals node).find? is_audio_candidate with
      | some v => rfl
      | none =>
        have hlt := scanStack_step_lt node rest
        exact ih f (by omega) _ f₂ (by omega) (by omega)

/-- The scan as run by the source: fuel is the total size, which the
previous lemma shows is never exhausted. -/
def scanStack (l : List Json) : Option Json := scanStackFuel (Json.jsizeList l) l

/-- `select_best_audio_stream`: the three strategies in order; each
falls through to the next exactly when it does not `return`. -/
def select_best_audio_stream (data : Json) : Option Json :=
  match strategy1 data with
  | some r => some r
  | none =>
    match strategy2 data with
    | some r => some r
    | none => scanStack [data]

example :
    select_best_audio_stream
      (.obj [("audioStreams",
        .arr [.obj [("url", .str "a"), ("bitrate", .num 64)],
              .obj [("url", .str "b"), ("bitrate", .num 128)]])]) =
    some (.obj [("url", .str "b"), ("bitrate", .num 128)]) := by rfl

example : select_best_audio_stream (.obj [("title", .str "T")]) = none := by rfl

example :
    select_best_audio_stream
      (.obj [("audioStreams",
        .arr [.obj [("url", .str "x"), ("mimeType", .str "video/mp4")]])]) =
    some (.obj [("url", .str "x"), ("mimeType", .str "video/mp4")]) := by rfl

example :
    select_best_audio_stream
      (.obj [("nested", .obj [("inner",
        .obj [("url", .str "u"), ("mimeType", .str "audio/mp4")])])]) =
    some (.obj [("url", .str "u"), ("mimeType", .str "audio/mp4")]) := by rfl

/-! ## Mirror fetching (`fetch_from_piped`) -/

/-- UTF-8 bytes of a character (used by percent-encoding). -/
def utf8Bytes (c : Char) : List Nat :=
  let n := c.toNat
  if n < 0x80 then [n]
  else if n < 0x800 then [0xC0 + n / 0x40, 0x80 + n % 0x40]
  else if n < 0x10000 then
    [0xE0 + n / 0x1000, 0x80 + (n / 0x40) % 0x40, 0x80 + n % 0x40]
  else
    [0xF0 + n / 0x40000, 0x80 + (n / 0x1000) % 0x40,
     0x80 + (n / 0x40) % 0x40, 0x80 + n % 0x40]

def hexDigit (n : Nat) : Char :=
  if n < 10 then Char.ofNat ('0'.toNat + n) else Char.ofNat ('A'.toNat + n - 10)

/-- The characters `urllib.parse.quote` leaves as-is with its default
`safe='/'`: unreserved characters plus the slash. -/
def quoteSafe (c : Char) : Bool :=
  c.isAlpha || c.isDigit || c == '_' || c == '.' || c == '-' || c == '~' || c == '/'

def quoteChar (c : Char) : List Char :=
  if quoteSafe c then [c]
  else (utf8Bytes c).flatMap (fun b => ['%', hexDigit (b / 16), hexDigit (b % 16)])

/-- `urllib.parse.quote(s)`. -/
def pyQuote (s : List Char) : List Char := s.flatMap quoteChar

/-- `base.rstrip('/')`. -/
def pyRstripSlash (s : List Char) : List Char :=
  (s.reverse.dropWhile (fun c => c == '/')).reverse

/-- `f"{base.rstrip('/')}/api/v1/streams/{urllib.parse.quote(video_id)}"`. -/
def requestUrl (base vid : List Char) : List Char :=
  pyRstripSlash base ++ ("/api/v1/streams/".toList) ++ pyQuote vid

/-- Classification of one GET attempt, as distinguished by the source's
exception handlers and status check: `timeout` is `asyncio.TimeoutError`
during the request; `unreachable` any other request exception
(connection/DNS/TLS); `malformed` an HTTP 200 whose body fails to parse;
`httpError` any non-200 status; `httpOk d` an HTTP 200 parsed to `d`. -/
inductive Outcome where
  | timeout
  | unreachable
  | malformed
  | httpError
  | httpOk (data : Json)

/-- A mirror instance: its base URL together with the network's outcome
for each attempt number.  In the source the base URLs are the fixed
`PIPED_INSTANCES` list; the outcome component is the network oracle. -/
abbrev MirrorInstance := List Char × (Nat → Outcome)

def PIPED_INSTANCES : List (List Char) :=
  ["https://piped.video".toList,
   "https://yewtu.be".toList,
   "https://yt.artemislena.eu".toList]

def MAX_INSTANCE_RETRY : Nat := 3

/-- The inner `for attempt in range(MAX_INSTANCE_RETRY)` loop of
`fetch_from_piped` on one instance: the body it would `return` (if any)
paired with the number of GET requests issued on this instance.  An
`httpOk` body failing the `isinstance(data, dict) and "title" in data`
validation falls through to the next attempt on the same instance, as
do `malformed`, `httpError` and `timeout`; `unreachable` breaks to the
next instance. -/
def tryInstanceAux (f : Nat → Outcome) : Nat → Nat → Option Json × Nat
  | 0, _ => (none, 0)
  | fuel + 1, attempt =>
    match f attempt with
    | .httpOk d =>
      if isValidData d then (some d, 1)
      else
        let r := tryInstanceAux f fuel (attempt + 1)
        (r.1, r.2 + 1)
    | .unreachable => (none, 1)
    | _ =>
      let r := tryInstanceAux f fuel (attempt + 1)
      (r.1, r.2 + 1)

def tryInstance (f : Nat → Outcome) : Option Json :=
  (tryInstanceAux f MAX_INSTANCE_RETRY 0).1

/-- Number of GET requests `fetch_from_piped` issues against one
instance before returning from it or moving past it. -/
def attemptsOn (f : Nat → Outcome) : Nat :=
  (tryInstanceAux f MAX_INSTANCE_RETRY 0).2

/-- The outer `for base in PIPED_INSTANCES` loop. -/
def fetchLoop : List MirrorInstance → Option Json
  | [] => none
  | (_, f) :: rest =>
    match tryInstance f with
    | some d => some d
    | none => fetchLoop rest

/-- `fetch_from_piped`: the falsy-id guard, then the instance loop. -/
def fetch_from_piped (vid : List Char) (insts : List MirrorInstance) : Option Json :=
  if vid.isEmpty then none else fetchLoop insts

/-- The URLs of the GET requests `fetch_from_piped vid` issues, in
order: instrumentation of the same loop (every attempt builds
`requestUrl base vid` before the request). -/
def urlsRequested (vid : List Char) (insts : List MirrorInstance) : List (List Char) :=
  if vid.isEmpty then [] else urlsLoop insts
where
  urlsLoop : List MirrorInstance → List (List Char)
    | [] => []
    | (base, f) :: rest =>
      List.replicate (attemptsOn f) (requestUrl base vid) ++
        (match tryInstance f with
         | some _ => []
         | none => urlsLoop rest)

/-! ## The `/download` route handler (`download_audio`) -/

/-- The JSON body assembled by a successful `download_audio` call. -/
structure ResolvedJson where
  video_id : List Char
  title : Json
  duration : Json
  thumbnail : Json
  audio_url : Json
  bitrate : Json
  mime_type : Json
  source_instance : Json

/-- The `# Normalize response fields` block of `download_audio`; a
Python `None` stored in the response dict serializes as JSON `null`,
embedded here as `Json.null`. -/
def normalizeFields (vid : List Char) (data audio : Json) : ResolvedJson :=
  { video_id := vid
  , title := pyOrJ (jgetD data "title") (pyOrJ (jgetD data "videoTitle") (.str ""))
  , duration := jgetD data "duration"
  , thumbnail := pyOrJ (jgetD data "thumbnailUrl")
      (pyOrJ (jgetD data "thumbnail") (jgetD data "videoThumbnails"))
  , audio_url := jgetD audio "url"
  , bitrate := pyOrJ (jgetD audio "bitrate") (pyOrJ (jgetD audio "contentLength") .null)
  , mime_type := pyOrJ (jgetD audio "mimeType") (pyOrJ (jgetD audio "type") .null)
  , source_instance := pyOrJ (jgetD data "source") .null }

/-- The four terminal outcomes of the `/download` route: HTTP 400, 502,
404, or 200 with the canonical body. -/
inductive HttpResult where
  | badRequest
  | badGateway
  | notFound
  | ok (body : ResolvedJson)

/-- `download_audio`: extractor, selector and normalizer chained with
the source's falsy-guards (`if not video_id`, `if not data`,
`if not audio`). -/
def download_audio (url : List Char) (insts : List MirrorInstance) : HttpResult :=
  match extract_video_id url with
  | none => .badRequest
  | some vid =>
    if vid.isEmpty then .badRequest
    else
      match fetch_from_piped vid insts with
      | none => .badGateway
      | some data =>
        if !jtruthy data then .badGateway
        else
          match select_best_audio_stream data with
          | none => .notFound
          | some audio =>
            if !jtruthy audio then .notFound
            else .ok (normalizeFields vid data audio)

/-! ## Heap model of the strategy-3 scan (sharing and cycles)

The tree `Json` cannot represent the shared or cyclic object graphs the
`id()`-based visited set of the source exists for.  Here a document is
an explicit heap: container nodes (dicts and lists) live at addresses,
values are primitives or references, and a node's identity is its
address — exactly what `id()` observes.  A cyclic document is a heap
whose nodes reference their ancestors. -/

/-- A Python value as the scan sees it: a primitive, or a reference to
a container node in the heap. -/
inductive HVal where
  | vnull
  | vbool (b : Bool)
  | vnum (n : Int)
  | vstr (s : String)
  | ref (addr : Nat)

/-- A container node: a dict or a list. -/
inductive HNode where
  | hobj (fields : List (String × HVal))
  | harr (elems : List HVal)

/-- A document heap.  Addresses outside the heap never arise for a
well-formed document; they are read as empty lists, which have no
children and no candidates. -/
abbrev Heap := List HNode

/-- `node.values()` for a dict, the items for a list. -/
def HNode.vals : HNode → List HVal
  | .hobj fs => fs.map (fun p => p.2)
  | .harr l => l

def heapNode (heap : Heap) (a : Nat) : HNode := heap.getD a (.harr [])

/-- Truthiness of a value (`x.get("url")` in `is_audio_candidate`);
a reference is truthy when the container it denotes is nonempty. -/
def hTruthy (heap : Heap) : HVal → Bool
  | .vnull => false
  | .vbool b => b
  | .vnum n => n != 0
  | .vstr s => s != ""
  | .ref a =>
    match heapNode heap a with
    | .hobj fs => !fs.isEmpty
    | .harr l => !l.isEmpty

def hGet? : HNode → String → Option HVal
  | .hobj fs, k => (fs.find? (fun p => p.1 == k)).map (fun p => p.2)
  | .harr _, _ => none

/-- `(x.get("mimeType", "") or "")` as a string, totalized as in
`mimeOf`: a present non-string mimeType reads as `""` here, although
Python's `in` raises on truthy numbers/booleans and does element/key
membership on lists/dicts (see `pyInAudio` in the tree model).  The
heap model serves only the termination claim, whose proof never depends
on the candidate predicate's value, so this totalization cannot affect
it. -/
def hMime (n : HNode) : String :=
  match hGet? n "mimeType" with
  | some (.vstr m) => m
  | _ => ""

/-- `is_audio_candidate` over the heap: a dict with a truthy `url` and
`"audio"` inside its mimeType. -/
def hIsAudioCandidate (heap : Heap) : HVal → Bool
  | .ref a =>
    (match heapNode heap a with
     | .hobj fs =>
       (match hGet? (.hobj fs) "url" with
        | some u => hTruthy heap u
        | none => false) && containsAudio (hMime (.hobj fs)).toList
     | .harr _ => false)
  | _ => false

/-- References are exactly what `isinstance(v, (dict, list))` pushes. -/
def hRef? : HVal → Option Nat
  | .ref a => some a
  | _ => none

/-- The strategy-3 `while stack` loop over the heap, with the `id()`
visited set as a list of addresses.  The outer `none` means the fuel ran
out; `some r` is the loop's result (`r = none` for the final
`return None`).  The stack is modelled reversed, as in `scanStackFuel`,
and as there, values are checked for candidacy before the pushes that
an early `return` would discard. -/
def scanHeapFuel (heap : Heap) : Nat → List Nat → List Nat → Option (Option HVal)
  | 0, _, _ => none
  | _ + 1, [], _ => some none
  | fuel + 1, a :: rest, visited =>
    if a ∈ visited then scanHeapFuel heap fuel rest visited
    else
      match ((heapNode heap a).vals).find? (hIsAudioCandidate heap) with
      | some v => some (some v)
      | none =>
        scanHeapFuel heap fuel
          ((((heapNode heap a).vals).filterMap hRef?).reverse ++ rest) (a :: visited)

/-- Weight of an address: the visit itself plus its push capacity. -/
def addrWeight (heap : Heap) (a : Nat) : Nat :=
  1 + (((heapNode heap a).vals).filterMap hRef?).length

/-- Termination measure: total weight of the unvisited in-heap
addresses, plus the stack length. -/
def scanMeasure (heap : Heap) (stack visited : List Nat) : Nat :=
  ((Finset.range heap.length).filter (fun x => x ∉ visited)).sum (addrWeight heap) +
    stack.length

/-- Visiting a fresh address removes exactly its weight from the
unvisited pool (nothing, when the address lies outside the heap). -/
theorem measure_visit_drop (heap : Heap) (visited : List Nat) (a : Nat)
    (hna : a ∉ visited) :
    ((Finset.range heap.length).filter (fun x => x ∉ (a :: visited))).sum (addrWeight heap) +
      (if a < heap.length then addrWeight heap a else 0) =
    ((Finset.range heap.length).filter (fun x => x ∉ visited)).sum (addrWeight heap) := by
  set s := (Finset.range heap.length).filter (fun x => x ∉ visited) with hs
  have hfe : (Finset.range heap.length).filter (fun x => x ∉ (a :: visited)) = s.erase a := by
    ext x
    simp only [Finset.mem_filter, Finset.mem_erase, List.mem_cons, not_or, hs]
    tauto
  rw [hfe]
  by_cases hal : a < heap.length
  · have ha : a ∈ s := by
      simp [hs, Finset.mem_filter, Finset.mem_range, hal, hna]
    rw [if_pos hal]
    exact Finset.sum_erase_add s _ ha
  · have ha : a ∉ s := by
      simp only [hs, Finset.mem_filter, Finset.mem_range]
      exact fun h => absurd h.1 hal
    rw [if_neg hal, Finset.erase_eq_of_not_mem ha, add_zero]

theorem heapNode_out (heap : Heap) (a : Nat) (h : ¬ a < heap.length) :
    heapNode heap a = .harr [] := by
  simp only [heapNode]
  exact List.getD_eq_default _ _ (by omega)

/-- Strong induction on the measure: the scan loop finishes before any
fuel at least the measure runs out. -/
theorem scanHeapFuel_term (heap : Heap) :
    ∀ n stack visited, scanMeasure heap stack visited ≤ n →
      (scanHeapFuel heap (n + 1) stack visited).isSome = true := by
  intro n
  induction n using Nat.strong_induction_on with
  | _ n ih =>
    intro stack visited hm
    match stack with
    | [] => simp [scanHeapFuel]
    | a :: rest =>
      have hstack : 1 ≤ scanMeasure heap (a :: rest) visited := by
        simp only [scanMeasure, List.length_cons]
        omega
      obtain ⟨m, rfl⟩ : ∃ m, n = m + 1 := ⟨n - 1, by omega⟩
      simp only [scanHeapFuel]
      by_cases hav : a ∈ visited
      · rw [if_pos hav]
        have hdec : scanMeasure heap rest visited + 1 =
            scanMeasure heap (a :: rest) visited := by
          simp only [scanMeasure, List.length_cons]
          omega
        exact ih m (by omega) rest visited (by omega)
      · rw [if_neg hav]
        cases hfind : ((heapNode heap a).vals).find? (hIsAudioCandidate heap) with
        | some v => simp
        | none =>
          have hdrop := measure_visit_drop heap visited a hav
          by_cases hal : a < heap.length
          · have hw : addrWeight heap a =
                1 + (((heapNode heap a).vals).filterMap hRef?).length := rfl
            have hdec : scanMeasure heap
                ((((heapNode heap a).vals).filterMap hRef?).reverse ++ rest)
                (a :: visited) + 2 ≤ scanMeasure heap (a :: rest) visited := by
              rw [if_pos hal] at hdrop
              simp only [scanMeasure, List.length_append, List.length_reverse,
                List.length_cons] at *
              omega
            exact ih m (by omega) _ _ (by omega)
          · have hvals : (heapNode heap a).vals = [] := by
              rw [heapNode_out heap a hal]; rfl
            have hdec : scanMeasure heap
                ((((heapNode heap a).vals).filterMap hRef?).reverse ++ rest)
                (a :: visited) + 1 ≤ scanMeasure heap (a :: rest) visited := by
              rw [if_neg hal] at hdrop
              simp only [hvals, List.filterMap_nil, List.reverse_nil,
                List.nil_append, scanMeasure, List.length_cons] at *
              omega
            exact ih m (by omega) _ _ (by omega)

/-! ## Properties of the candidate ranking (`max(candidates, key=score)`) -/

/-- The running best of the fold is one of the inputs. -/
theorem pyMaxBy_mem (key : Json → Int) :
    ∀ (l : List Json) (best : Json), pyMaxBy key best l ∈ best :: l := by
  intro l
  induction l with
  | nil => intro best; simp [pyMaxBy]
  | cons x t ih =>
    intro best
    simp only [pyMaxBy]
    by_cases hc : key x > key best
    · rw [if_pos hc]
      rcases List.mem_cons.mp (ih x) with h | h
      · rw [h]; exact List.mem_cons_of_mem _ (List.mem_cons_self _ _)
      · exact List.mem_cons_of_mem _ (List.mem_cons_of_mem _ h)
    · rw [if_neg hc]
      rcases List.mem_cons.mp (ih best) with h | h
      · rw [h]; exact List.mem_cons_self _ _
      · exact List.mem_cons_of_mem _ (List.mem_cons_of_mem _ h)

/-- The fold's result dominates the running best and every element. -/
theorem pyMaxBy_le (key : Json → Int) :
    ∀ (l : List Json) (best : Json),
      key best ≤ key (pyMaxBy key best l) ∧
      ∀ c ∈ l, key c ≤ key (pyMaxBy key best l) := by
  intro l
  induction l with
  | nil => intro best; exact ⟨le_refl _, by simp⟩
  | cons x t ih =>
    intro best
    simp only [pyMaxBy]
    by_cases hc : key x > key best
    · rw [if_pos hc]
      obtain ⟨h1, h2⟩ := ih x
      refine ⟨by omega, ?_⟩
      intro c hcm
      rcases List.mem_cons.mp hcm with rfl | hm
      · exact h1
      · exact h2 c hm
    · rw [if_neg hc]
      obtain ⟨h1, h2⟩ := ih best
      refine ⟨h1, ?_⟩
      intro c hcm
      rcases List.mem_cons.mp hcm with rfl | hm
      · omega
      · exact h2 c hm

/-- The fold's result is the first-encountered maximal element: CPython's
`max` replaces the running best only on a strictly greater key, so every
element before the winner scores strictly below it. -/
theorem pyMaxBy_first (key : Json → Int) :
    ∀ (t : List Json) (x : Json),
      ∃ l1 l2, x :: t = l1 ++ pyMaxBy key x t :: l2 ∧
        ∀ c ∈ l1, key c < key (pyMaxBy key x t) := by
  intro t
  induction t with
  | nil => intro x; exact ⟨[], [], by simp [pyMaxBy], by simp⟩
  | cons y t ih =>
    intro x
    by_cases hc : key y > key x
    · have hstep : pyMaxBy key x (y :: t) = pyMaxBy key y t := by
        simp only [pyMaxBy, if_pos hc]
      obtain ⟨l1, l2, hdec, hlt⟩ := ih y
      rw [hstep]
      refine ⟨x :: l1, l2, by rw [List.cons_append, ← hdec], ?_⟩
      intro c hcm
      rcases List.mem_cons.mp hcm with rfl | hm
      · have := (pyMaxBy_le key t y).1
        omega
      · exact hlt c hm
    · have hstep : pyMaxBy key x (y :: t) = pyMaxBy key x t := by
        simp only [pyMaxBy, if_neg hc]
      obtain ⟨l1, l2, hdec, hlt⟩ := ih x
      rw [hstep]
      cases l1 with
      | nil =>
        rw [List.nil_append] at hdec
        have hx : x = pyMaxBy key x t := (List.cons_eq_cons.mp hdec).1
        exact ⟨[], y :: t, by rw [List.nil_append, ← hx], by simp⟩
      | cons z l1' =>
        rw [List.cons_append] at hdec
        have hz : z = x := ((List.cons_eq_cons.mp hdec).1).symm
        have ht : t = l1' ++ pyMaxBy key x t :: l2 := (List.cons_eq_cons.mp hdec).2
        have hxlt : key x < key (pyMaxBy key x t) := by
          have := hlt z (List.mem_cons_self _ _)
          rw [hz] at this
          exact this
        refine ⟨x :: y :: l1', l2, ?_, ?_⟩
        · rw [List.cons_append, List.cons_append, ← ht]
        · intro c hcm
          rcases List.mem_cons.mp hcm with rfl | hm
          · exact hxlt
          · rcases List.mem_cons.mp hm with rfl | hm'
            · omega
            · exact hlt c (List.mem_cons_of_mem _ hm')

/-! ## What each selection strategy can return -/

/-- A successful strategy 1 returns the `max` of the url-filtered
`audioStreams` entries. -/
theorem strategy1_eq_some (data w : Json) (h : strategy1 data = some w) :
    ∃ x t, (audioStreamsList data).filter cand1 = x :: t ∧
      w = pyMaxBy jscore x t := by
  simp only [strategy1] at h
  by_cases he : (audioStreamsList data).isEmpty
  · rw [if_pos he] at h; exact absurd h (by simp)
  · rw [if_neg he] at h
    cases hf : (audioStreamsList data).filter cand1 with
    | nil => rw [hf] at h; exact absurd h (by simp)
    | cons x t =>
      rw [hf] at h
      exact ⟨x, t, rfl, by injection h with h'; exact h'.symm⟩

/-- Strategy 1 winners satisfy the strategy-1 admission predicate. -/
theorem strategy1_cand (data w : Json) (h : strategy1 data = some w) :
    cand1 w = true := by
  obtain ⟨x, t, hf, rfl⟩ := strategy1_eq_some data w h
  have hmem : pyMaxBy jscore x t ∈ (audioStreamsList data).filter cand1 :=
    hf ▸ pyMaxBy_mem jscore t x
  exact (List.mem_filter.mp hmem).2

/-- Strategy 2 winners satisfy the strategy-2 admission predicate. -/
theorem strategy2Loop_cand (data w : Json) :
    ∀ keys, strategy2Loop data keys = some w → cand2 w = true := by
  intro keys
  induction keys with
  | nil => intro h; simp [strategy2Loop] at h
  | cons k rest ih =>
    intro h
    simp only [strategy2Loop] at h
    by_cases he : (listAt data k).isEmpty
    · rw [if_pos he] at h; exact ih h
    · rw [if_neg he] at h
      cases hf : (listAt data k).filter cand2 with
      | nil => rw [hf] at h; exact ih h
      | cons x t =>
        rw [hf] at h
        have hw : w = pyMaxBy jscore x t := by injection h with h'; exact h'.symm
        have hmem : pyMaxBy jscore x t ∈ (listAt data k).filter cand2 :=
          hf ▸ pyMaxBy_mem jscore t x
        rw [hw]
        exact (List.mem_filter.mp hmem).2

/-- Strategy 3 only ever returns a value passing `is_audio_candidate`. -/
theorem scanStackFuel_cand (w : Json) :
    ∀ fuel stack, scanStackFuel fuel stack = some w →
      is_audio_candidate w = true := by
  intro fuel
  induction fuel with
  | zero =>
    intro stack h
    cases stack <;> simp [scanStackFuel] at h
  | succ f ih =>
    intro stack h
    cases stack with
    | nil => simp [scanStackFuel] at h
    | cons node rest =>
      simp only [scanStackFuel] at h
      cases hf : (childVals node).find? is_audio_candidate with
      | some v =>
        rw [hf] at h
        have hv : v = w := by injection h
        exact hv ▸ List.find?_some hf
      | none =>
        rw [hf] at h
        exact ih _ h

/-- A dict with a truthy value under some key is itself truthy. -/
theorem truthy_of_obj_get (w : Json) (k : String)
    (ho : Json.isObj w = true) (hg : truthyGet w k = true) :
    jtruthy w = true := by
  cases w with
  | obj fs =>
    cases fs with
    | nil => simp [truthyGet, jgetD, Json.get?, List.find?, jtruthy] at hg
    | cons p t => simp [jtruthy]
  | null => simp [Json.isObj] at ho
  | bool b => simp [Json.isObj] at ho
  | num n => simp [Json.isObj] at ho
  | str s => simp [Json.isObj] at ho
  | arr l => simp [Json.isObj] at ho

/-- Anything `select_best_audio_stream` returns is truthy (it is a dict
holding at least a truthy `url`), so the route's `if not audio` guard
never fires on a `some` result. -/
theorem select_truthy (data audio : Json)
    (h : select_best_audio_stream data = some audio) : jtruthy audio = true := by
  simp only [select_best_audio_stream] at h
  cases h1 : strategy1 data with
  | some r =>
    rw [h1] at h
    have hr : r = audio := by injection h
    have hc := strategy1_cand data r h1
    simp only [cand1, Bool.and_eq_true] at hc
    exact hr ▸ truthy_of_obj_get r "url" hc.1 hc.2
  | none =>
    rw [h1] at h
    cases h2 : strategy2 data with
    | some r =>
      rw [h2] at h
      have hr : r = audio := by injection h
      have hc := strategy2Loop_cand data r _ h2
      simp only [cand2, Bool.and_eq_true] at hc
      exact hr ▸ truthy_of_obj_get r "url" hc.1.1 hc.1.2
    | none =>
      rw [h2] at h
      have hc := scanStackFuel_cand audio _ _ h
      simp only [is_audio_candidate, Bool.and_eq_true] at hc
      exact truthy_of_obj_get audio "url" hc.1.1 hc.1.2

/-! ## What the fetch loop can return -/

/-- The attempt loop only ever returns a body passing the
`isinstance(data, dict) and "title" in data` validation. -/
theorem tryInstanceAux_valid (f : Nat → Outcome) :
    ∀ fuel attempt d, (tryInstanceAux f fuel attempt).1 = some d →
      isValidData d = true := by
  intro fuel
  induction fuel with
  | zero => intro a d h; simp [tryInstanceAux] at h
  | succ fu ih =>
    intro a d h
    simp only [tryInstanceAux] at h
    cases ho : f a with
    | httpOk j =>
      rw [ho] at h
      dsimp only at h
      by_cases hv : isValidData j = true
      · rw [if_pos hv] at h
        dsimp only at h
        have : j = d := by injection h
        exact this ▸ hv
      · rw [if_neg hv] at h
        dsimp only at h
        exact ih _ _ h
    | unreachable => rw [ho] at h; simp at h
    | timeout => rw [ho] at h; dsimp only at h; exact ih _ _ h
    | malformed => rw [ho] at h; dsimp only at h; exact ih _ _ h
    | httpError => rw [ho] at h; dsimp only at h; exact ih _ _ h

theorem fetchLoop_valid :
    ∀ insts d, fetchLoop insts = some d → isValidData d = true := by
  intro insts
  induction insts with
  | nil => intro d h; simp [fetchLoop] at h
  | cons inst rest ih =>
    intro d h
    obtain ⟨b, f⟩ := inst
    simp only [fetchLoop] at h
    cases ht : tryInstance f with
    | some j =>
      rw [ht] at h
      have : j = d := by injection h
      exact this ▸ tryInstanceAux_valid f _ _ j ht
    | none => rw [ht] at h; exact ih d h

/-- Whatever `fetch_from_piped` returns passed the title validation. -/
theorem fetch_valid (vid : List Char) (insts : List MirrorInstance) (d : Json)
    (h : fetch_from_piped vid insts = some d) : isValidData d = true := by
  simp only [fetch_from_piped] at h
  by_cases he : vid.isEmpty
  · rw [if_pos he] at h; exact absurd h (by simp)
  · rw [if_neg he] at h; exact fetchLoop_valid insts d h

/-- Valid bodies are truthy dicts, so the route's `if not data` guard
never fires on a `some` fetch result. -/
theorem validData_truthy (d : Json) (h : isValidData d = true) :
    jtruthy d = true := by
  cases d with
  | obj fs =>
    cases fs with
    | nil => simp [isValidData, Json.get?, List.find?] at h
    | cons p t => simp [jtruthy]
  | null => simp [isValidData, Json.isObj] at h
  | bool b => simp [isValidData, Json.isObj] at h
  | num n => simp [isValidData, Json.isObj] at h
  | str s => simp [isValidData, Json.isObj] at h
  | arr l => simp [isValidData, Json.isObj] at h

/-! ## Shape of extracted identifiers -/

/-- Whatever `takeId11` returns is an 11-character id-alphabet run and a
prefix of its input. -/
theorem takeId11_shape (s r : List Char) (h : takeId11 s = some r) :
    r.length = 11 ∧ r.all isIdChar = true ∧ r <+: s := by
  simp only [takeId11] at h
  by_cases hc : ((s.take 11).length = 11 && (s.take 11).all isIdChar) = true
  · rw [if_pos hc] at h
    have hr : s.take 11 = r := by injection h
    obtain ⟨h1, h2⟩ := Bool.and_eq_true_iff.mp hc
    subst hr
    exact ⟨of_decide_eq_true h1, h2, List.take_prefix 11 s⟩
  · rw [if_neg hc] at h; exact absurd h (by simp)

/-- A property of every possible match of `m` transfers through
`re.search`. -/
theorem searchFirst_prop (m : List Char → Option (List Char)) (P : List Char → Prop)
    (hm : ∀ s r, m s = some r → P r) :
    ∀ s r, searchFirst m s = some r → P r := by
  intro s
  induction s with
  | nil => intro r h; exact hm [] r h
  | cons c t ih =>
    intro r h
    simp only [searchFirst] at h
    cases hmc : m (c :: t) with
    | some r' =>
      rw [hmc] at h
      have : r' = r := by injection h
      exact this ▸ hm _ r' hmc
    | none => rw [hmc] at h; exact ih r h

theorem litThenId_shape (lit s r : List Char) (h : litThenId lit s = some r) :
    r.length = 11 ∧ r.all isIdChar = true := by
  simp only [litThenId] at h
  by_cases hp : lit.isPrefixOf s = true
  · rw [if_pos hp] at h
    exact ⟨(takeId11_shape _ _ h).1, (takeId11_shape _ _ h).2.1⟩
  · rw [if_neg hp] at h; exact absurd h (by simp)

theorem matchQuery_shape (s r : List Char) (h : matchQuery s = some r) :
    r.length = 11 ∧ r.all isIdChar = true := by
  cases s with
  | nil => simp [matchQuery] at h
  | cons c rest =>
    simp only [matchQuery] at h
    by_cases hc : (c == '?' || c == '&') = true
    · rw [if_pos hc] at h; exact litThenId_shape _ _ _ h
    · rw [if_neg hc] at h; exact absurd h (by simp)

theorem matchEmbed_shape (s r : List Char) (h : matchEmbed s = some r) :
    r.length = 11 ∧ r.all isIdChar = true := by
  simp only [matchEmbed] at h
  cases h1 : litThenId ("/embed/".toList) s with
  | some r' =>
    rw [h1] at h
    have : r' = r := by injection h
    exact this ▸ litThenId_shape _ _ _ h1
  | none => rw [h1] at h; exact litThenId_shape _ _ _ h

/-- Every id produced by `extract_video_id` is 11 characters of the id
alphabet, whichever pattern matched. -/
theorem extract_shape (input vid : List Char)
    (h : extract_video_id input = some vid) :
    vid.length = 11 ∧ vid.all isIdChar = true := by
  simp only [extract_video_id] at h
  by_cases he : input.isEmpty
  · rw [if_pos he] at h; exact absurd h (by simp)
  · rw [if_neg he] at h
    by_cases hfull :
        ((pyStrip input).length = 11 && (pyStrip input).all isIdChar) = true
    · rw [if_pos hfull] at h
      have : pyStrip input = vid := by injection h
      obtain ⟨h1, h2⟩ := Bool.and_eq_true_iff.mp hfull
      exact this ▸ ⟨of_decide_eq_true h1, h2⟩
    · rw [if_neg hfull] at h
      cases h1 : searchFirst matchShort (pyStrip input) with
      | some r =>
        rw [h1] at h
        have : r = vid := by injection h
        exact this ▸ searchFirst_prop matchShort _
          (fun s' r' hr => litThenId_shape _ s' r' hr) _ r h1
      | none =>
        rw [h1] at h
        cases h2 : searchFirst matchQuery (pyStrip input) with
        | some r =>
          rw [h2] at h
          have : r = vid := by injection h
          exact this ▸ searchFirst_prop matchQuery _ matchQuery_shape _ r h2
        | none =>
          rw [h2] at h
          cases h3 : searchFirst matchEmbed (pyStrip input) with
          | some r =>
            rw [h3] at h
            have : r = vid := by injection h
            exact this ▸ searchFirst_prop matchEmbed _ matchEmbed_shape _ r h3
          | none =>
            rw [h3] at h
            exact searchFirst_prop takeId11
              (fun r => r.length = 11 ∧ r.all isIdChar = true)
              (fun s' r' hr => ⟨(takeId11_shape s' r' hr).1,
                (takeId11_shape s' r' hr).2.1⟩) _ vid h

theorem extract_nonempty (input vid : List Char)
    (h : extract_video_id input = some vid) : vid.isEmpty = false := by
  obtain ⟨hlen, _⟩ := extract_shape input vid h
  cases vid with
  | nil => simp at hlen
  | cons c t => rfl

/-! ## Percent-encoding an extracted id is the identity -/

theorem quoteChar_id (c : Char) (h : isIdChar c = true) : quoteChar c = [c] := by
  have hs : quoteSafe c = true := by
    simp only [isIdChar, Bool.or_eq_true] at h
    simp only [quoteSafe, Bool.or_eq_true]
    tauto
  simp only [quoteChar, hs, if_true]

theorem pyQuote_id (vid : List Char) (h : vid.all isIdChar = true) :
    pyQuote vid = vid := by
  induction vid with
  | nil => rfl
  | cons c t ih =>
    simp only [List.all_cons, Bool.and_eq_true] at h
    simp only [pyQuote, List.flatMap_cons] at *
    rw [quoteChar_id c h.1, ih h.2]
    rfl

/-! ## Characterising extraction failure via 11-character runs -/

/-- The last-resort pattern succeeds exactly when an 11-character run
exists. -/
theorem searchFirst_takeId11_isSome (s : List Char) :
    (searchFirst takeId11 s).isSome = hasRun11 s := by
  induction s with
  | nil => rfl
  | cons c t ih =>
    cases h : takeId11 (c :: t) with
    | some r => simp [searchFirst, hasRun11, h]
    | none => simp [searchFirst, hasRun11, h, ih]

theorem hasRun11_cons_of (c : Char) (t : List Char) (h : hasRun11 t = true) :
    hasRun11 (c :: t) = true := by
  simp [hasRun11, h]

theorem hasRun11_of_takeId11_drop :
    ∀ (n : Nat) (s r : List Char), takeId11 (s.drop n) = some r →
      hasRun11 s = true := by
  intro n
  induction n with
  | zero =>
    intro s r h
    rw [List.drop_zero] at h
    cases s with
    | nil => simp [takeId11] at h
    | cons c t => simp [hasRun11, h]
  | succ m ih =>
    intro s r h
    cases s with
    | nil => simp [takeId11] at h
    | cons c t =>
      rw [List.drop_succ_cons] at h
      exact hasRun11_cons_of c t (ih t r h)

theorem litThenId_run (lit s r : List Char) (h : litThenId lit s = some r) :
    hasRun11 s = true := by
  simp only [litThenId] at h
  by_cases hp : lit.isPrefixOf s = true
  · rw [if_pos hp] at h
    exact hasRun11_of_takeId11_drop lit.length s r h
  · rw [if_neg hp] at h; exact absurd h (by simp)

theorem matchQuery_run (s r : List Char) (h : matchQuery s = some r) :
    hasRun11 s = true := by
  cases s with
  | nil => simp [matchQuery] at h
  | cons c rest =>
    simp only [matchQuery] at h
    by_cases hc : (c == '?' || c == '&') = true
    · rw [if_pos hc] at h
      exact hasRun11_cons_of c rest (litThenId_run _ _ _ h)
    · rw [if_neg hc] at h; exact absurd h (by simp)

theorem matchEmbed_run (s r : List Char) (h : matchEmbed s = some r) :
    hasRun11 s = true := by
  simp only [matchEmbed] at h
  cases h1 : litThenId ("/embed/".toList) s with
  | some r' => exact litThenId_run _ _ _ h1
  | none => rw [h1] at h; exact litThenId_run _ _ _ h

theorem searchFirst_run (m : List Char → Option (List Char))
    (hm : ∀ s r, m s = some r → hasRun11 s = true) :
    ∀ s r, searchFirst m s = some r → hasRun11 s = true := by
  intro s
  induction s with
  | nil => intro r h; exact hm [] r h
  | cons c t ih =>
    intro r h
    simp only [searchFirst] at h
    cases hmc : m (c :: t) with
    | some r' => exact hm _ _ hmc
    | none => rw [hmc] at h; exact hasRun11_cons_of c t (ih r h)

/-- Whitespace is never an id character. -/
theorem isPySpace_not_id (c : Char) (h : isPySpace c = true) :
    isIdChar c = false := by
  simp only [isPySpace, Bool.or_eq_true, beq_iff_eq] at h
  rcases h with ((((h | h) | h) | h) | h) | h <;> subst h <;> decide

theorem takeId11_cons_space (c : Char) (t : List Char) (h : isPySpace c = true) :
    takeId11 (c :: t) = none := by
  have hid := isPySpace_not_id c h
  have htake : (c :: t).take 11 = c :: t.take 10 := rfl
  simp [takeId11, htake, hid]

/-- Stripping leading whitespace does not create or destroy runs. -/
theorem hasRun11_dropWhile (s : List Char) :
    hasRun11 (s.dropWhile isPySpace) = hasRun11 s := by
  induction s with
  | nil => rfl
  | cons c t ih =>
    rw [List.dropWhile_cons]
    by_cases h : isPySpace c = true
    · rw [if_pos h, ih]
      simp [hasRun11, takeId11_cons_space c t h]
    · rw [if_neg h]

theorem takeId11_isSome_iff (s : List Char) :
    (takeId11 s).isSome = true ↔
      ∃ m b, s = m ++ b ∧ m.length = 11 ∧ m.all isIdChar = true := by
  constructor
  · intro h
    cases hts : takeId11 s with
    | none => rw [hts] at h; exact absurd h (by simp)
    | some r =>
      obtain ⟨h1, h2, h3⟩ := takeId11_shape s r hts
      obtain ⟨b, hb⟩ := h3
      exact ⟨r, b, hb.symm, h1, h2⟩
  · rintro ⟨m, b, rfl, hlen, hall⟩
    have ht : (m ++ b).take 11 = m := List.take_left' hlen
    simp [takeId11, ht, hlen, hall]

/-- The scan finds a run exactly when a decomposition around an
11-character id-alphabet block exists. -/
theorem hasRun11_iff_exists (s : List Char) :
    hasRun11 s = true ↔
      ∃ a m b, s = a ++ m ++ b ∧ m.length = 11 ∧ m.all isIdChar = true := by
  induction s with
  | nil =>
    simp only [hasRun11]
    constructor
    · intro h; exact absurd h (by simp)
    · rintro ⟨a, m, b, he, hlen, _⟩
      have := congrArg List.length he
      simp at this
      omega
  | cons c t ih =>
    simp only [hasRun11, Bool.or_eq_true]
    constructor
    · rintro (h | h)
      · obtain ⟨m, b, he, hlen, hall⟩ := (takeId11_isSome_iff (c :: t)).mp h
        exact ⟨[], m, b, by simpa using he, hlen, hall⟩
      · obtain ⟨a, m, b, he, hlen, hall⟩ := ih.mp h
        exact ⟨c :: a, m, b, by simp [he], hlen, hall⟩
    · rintro ⟨a, m, b, he, hlen, hall⟩
      cases a with
      | nil =>
        left
        exact (takeId11_isSome_iff (c :: t)).mpr ⟨m, b, by simpa using he, hlen, hall⟩
      | cons a0 a' =>
        right
        have he' : c :: t = a0 :: (a' ++ m ++ b) := by simpa using he
        exact ih.mpr ⟨a', m, b, (List.cons_eq_cons.mp he').2, hlen, hall⟩

theorem hasRun11_reverse (s : List Char) :
    hasRun11 s.reverse = hasRun11 s := by
  have key : ∀ u : List Char, hasRun11 u = true → hasRun11 u.reverse = true := by
    intro u hu
    obtain ⟨a, m, b, he, hlen, hall⟩ := (hasRun11_iff_exists u).mp hu
    apply (hasRun11_iff_exists u.reverse).mpr
    refine ⟨b.reverse, m.reverse, a.reverse, ?_, by simpa using hlen,
      by simpa using hall⟩
    rw [he]
    simp [List.reverse_append, List.append_assoc]
  cases hr : hasRun11 s.reverse with
  | true =>
    have := key s.reverse hr
    rw [List.reverse_reverse] at this
    rw [this]
  | false =>
    cases ho : hasRun11 s with
    | true => rw [key s ho] at hr; exact hr.symm
    | false => rfl

/-- Stripping whitespace at either end does not create or destroy
runs. -/
theorem hasRun11_pyStrip (s : List Char) :
    hasRun11 (pyStrip s) = hasRun11 s := by
  simp only [pyStrip]
  rw [hasRun11_reverse, hasRun11_dropWhile, hasRun11_reverse, hasRun11_dropWhile]

/-- If extraction fails, no 11-character run exists anywhere. -/
theorem extract_none_noRun (input : List Char)
    (h : extract_video_id input = none) : hasRun11 input = false := by
  simp only [extract_video_id] at h
  by_cases he : input.isEmpty
  · have : input = [] := List.isEmpty_iff.mp he
    rw [this]; rfl
  · rw [if_neg he] at h
    by_cases hfull :
        ((pyStrip input).length = 11 && (pyStrip input).all isIdChar) = true
    · rw [if_pos hfull] at h; exact absurd h (by simp)
    · rw [if_neg hfull] at h
      cases h1 : searchFirst matchShort (pyStrip input) with
      | some r => rw [h1] at h; exact absurd h (by simp)
      | none =>
        rw [h1] at h
        cases h2 : searchFirst matchQuery (pyStrip input) with
        | some r => rw [h2] at h; exact absurd h (by simp)
        | none =>
          rw [h2] at h
          cases h3 : searchFirst matchEmbed (pyStrip input) with
          | some r => rw [h3] at h; exact absurd h (by simp)
          | none =>
            rw [h3] at h
            dsimp only at h
            have hi := searchFirst_takeId11_isSome (pyStrip input)
            rw [h] at hi
            rw [← hasRun11_pyStrip]
            exact hi.symm

/-- If no 11-character run exists anywhere, extraction fails. -/
theorem extract_none_of_noRun (input : List Char)
    (h : hasRun11 input = false) : extract_video_id input = none := by
  simp only [extract_video_id]
  by_cases he : input.isEmpty
  · rw [if_pos he]
  · rw [if_neg he]
    have hs : hasRun11 (pyStrip input) = false := by
      rw [hasRun11_pyStrip]; exact h
    have hfull :
        ¬ (((pyStrip input).length = 11 && (pyStrip input).all isIdChar) = true) := by
      intro hc
      obtain ⟨h1, h2⟩ := Bool.and_eq_true_iff.mp hc
      have hrun : hasRun11 (pyStrip input) = true :=
        (hasRun11_iff_exists _).mpr
          ⟨[], pyStrip input, [], by simp, of_decide_eq_true h1, h2⟩
      rw [hs] at hrun; exact absurd hrun (by simp)
    rw [if_neg hfull]
    cases h1 : searchFirst matchShort (pyStrip input) with
    | some r =>
      have := searchFirst_run matchShort (fun s' r' hr => litThenId_run _ s' r' hr) _ r h1
      rw [hs] at this; exact absurd this (by simp)
    | none =>
      cases h2 : searchFirst matchQuery (pyStrip input) with
      | some r =>
        have := searchFirst_run matchQuery matchQuery_run _ r h2
        rw [hs] at this; exact absurd this (by simp)
      | none =>
        cases h3 : searchFirst matchEmbed (pyStrip input) with
        | some r =>
          have := searchFirst_run matchEmbed matchEmbed_run _ r h3
          rw [hs] at this; exact absurd this (by simp)
        | none =>
          have hi := searchFirst_takeId11_isSome (pyStrip input)
          rw [hs] at hi
          cases h4 : searchFirst takeId11 (pyStrip input) with
          | some r => rw [h4] at hi; exact absurd hi (by simp)
          | none => rfl

/-! ## The claims -/

/-- C5: an input whose trimmed form is exactly 11 characters of
`[0-9A-Za-z_-]` is returned verbatim — the result is that trimmed string
itself, unchanged. -/
theorem claim_C5 (input : List Char)
    (hlen : (pyStrip input).length = 11)
    (hall : (pyStrip input).all isIdChar = true) :
    extract_video_id input = some (pyStrip input) := by
  have hne : input.isEmpty = false := by
    cases input with
    | nil => simp [pyStrip] at hlen
    | cons c t => rfl
  simp only [extract_video_id, hne, Bool.false_eq_true, if_false]
  rw [if_pos (by simp [hlen, hall])]

/-- C5 witness at the concrete input `"  dQw4w9WgXcQ  "`. -/
theorem claim_C5_witness :
    (pyStrip ("  dQw4w9WgXcQ  ".toList)).length = 11 ∧
    (pyStrip ("  dQw4w9WgXcQ  ".toList)).all isIdChar = true ∧
    extract_video_id ("  dQw4w9WgXcQ  ".toList) =
      some (pyStrip ("  dQw4w9WgXcQ  ".toList)) :=
  ⟨by decide, by decide, claim_C5 ("  dQw4w9WgXcQ  ".toList) (by decide) (by decide)⟩

/-- C6: extraction fails exactly when the input contains no run of 11
consecutive id-alphabet characters anywhere; whenever such a run exists,
extraction succeeds (possibly as a documented false positive). -/
theorem claim_C6 (input : List Char) :
    extract_video_id input = none ↔
      ¬ ∃ a m b, input = a ++ m ++ b ∧ m.length = 11 ∧ m.all isIdChar = true := by
  rw [← hasRun11_iff_exists]
  constructor
  · intro h hrun
    rw [extract_none_noRun input h] at hrun
    exact absurd hrun (by simp)
  · intro h
    apply extract_none_of_noRun
    cases hx : hasRun11 input with
    | false => rfl
    | true => exact absurd hx h

/-- C6 witness: `"not a url, no id"` has no run and fails; the
adversarial `"version 1.0 build abcdefghijk done"` has an unrelated run
and extraction succeeds on it. -/
theorem claim_C6_witness :
    extract_video_id ("not a url, no id".toList) = none ∧
    extract_video_id ("version 1.0 build abcdefghijk done".toList) ≠ none :=
  ⟨(claim_C6 ("not a url, no id".toList)).mpr
    (fun hex => by
      have hr := (hasRun11_iff_exists ("not a url, no id".toList)).mpr hex
      revert hr
      decide),
   fun h => absurd ⟨"version 1.0 build ".toList, "abcdefghijk".toList,
      " done".toList, by decide, by decide, by decide⟩
    ((claim_C6 ("version 1.0 build abcdefghijk done".toList)).mp h)⟩

/-- C4 (the code evaluated at the failing input): an instance answering
HTTP 200 with a malformed body on every attempt consumes all
`MAX_INSTANCE_RETRY = 3` requests on that same instance — exactly as a
timeout does — before the loop moves past it, while only a connection
failure advances after a single request.  The claim (and the source's
own comment `continue to next instance`) say a malformed 200 should
advance immediately without consuming a retry. -/
theorem claim_C4_code_behaviour :
    attemptsOn (fun _ => Outcome.malformed) = 3 ∧
    attemptsOn (fun _ => Outcome.timeout) = 3 ∧
    attemptsOn (fun _ => Outcome.unreachable) = 1 ∧
    MAX_INSTANCE_RETRY = 3 :=
  ⟨rfl, rfl, rfl, rfl⟩

/-- C10: the strategy-3 structural scan terminates on every finite
document heap — shared and cyclic object graphs included — because
already-visited node identities (addresses) are skipped: some finite
fuel is never exhausted and the loop yields a result. -/
theorem claim_C10 (heap : Heap) (root : Nat) :
    ∃ fuel r, scanHeapFuel heap fuel [root] [] = some r := by
  have h := scanHeapFuel_term heap (scanMeasure heap [root] []) [root] [] le_rfl
  obtain ⟨r, hr⟩ := Option.isSome_iff_exists.mp h
  exact ⟨scanMeasure heap [root] [] + 1, r, hr⟩

example :
    scanHeapFuel [HNode.hobj [("self", HVal.ref 0)]] 3 [0] [] = some none := by rfl

/-- Modelled from the spec's ranking sentence, read literally: maximize
by `bitrate`, falling back to `contentLength` when bitrate is *absent*
(the key missing), defaulting to zero when neither is present.  Compare
`jscore`, the source's `or`-chain, which also skips a *present but
falsy* (zero) bitrate. -/
def specScore (s : Json) : Int :=
  match s.get? "bitrate" with
  | some v => jnum v
  | none =>
    match s.get? "contentLength" with
    | some v => jnum v
    | none => 0

def exA0 : Json := .obj [("url", .str "a"), ("bitrate", .num 0), ("contentLength", .num 500)]
def exB64 : Json := .obj [("url", .str "b"), ("bitrate", .num 64)]
def exDoc0 : Json := .obj [("audioStreams", .arr [exA0, exB64])]

def exA64 : Json := .obj [("url", .str "a"), ("bitrate", .num 64)]
def exB128 : Json := .obj [("url", .str "b"), ("bitrate", .num 128)]
def exDoc64 : Json := .obj [("audioStreams", .arr [exA64, exB128])]

def exVid : Json := .obj [("url", .str "x"), ("mimeType", .str "video/mp4")]
def exDocVid : Json := .obj [("audioStreams", .arr [exVid])]

/-- C7 counterexample: strategy 1 admits and selects an `audioStreams`
entry whose mimeType is `video/mp4` — the source filters only on `url`
there, so a non-audio mimeType entry wins. -/
theorem claim_C7_counterexample :
    select_best_audio_stream exDocVid = some exVid ∧
    ("audio".toList.isPrefixOf (mimeOf exVid).toList) = false :=
  ⟨rfl, rfl⟩

/-- C7 (amended): every entry strategy 1 admits (and hence every winner
it returns) is a mapping with a truthy `url`; that is the whole
admission check — no mimeType condition is applied by this strategy. -/
theorem claim_C7_amended (data w : Json) (h : strategy1 data = some w) :
    Json.isObj w = true ∧ truthyGet w "url" = true := by
  have hc := strategy1_cand data w h
  simpa [cand1, Bool.and_eq_true] using hc

/-- C7 witness at the counterexample document. -/
theorem claim_C7_witness :
    strategy1 exDocVid = some exVid ∧
    (Json.isObj exVid = true ∧ truthyGet exVid "url" = true) :=
  ⟨rfl, claim_C7_amended exDocVid exVid rfl⟩

def exTitledOnly : Json := .obj [("title", .str "T")]
def exGood : Json := .obj [("title", .str "U"),
  ("audioStreams", .arr [.obj [("url", .str "X"), ("bitrate", .num 160)]])]

/-- C3 counterexample: the first mirror's response carries a title but
no audio candidate; the selector still returns it and never consults
the second, fully usable mirror — contradicting "a response from which
no audio candidate can be extracted does not terminate the search". -/
theorem claim_C3_counterexample :
    fetch_from_piped ("dQw4w9WgXcQ".toList)
      [("https://a".toList, fun _ => Outcome.httpOk exTitledOnly),
       ("https://b".toList, fun _ => Outcome.httpOk exGood)] = some exTitledOnly ∧
    select_best_audio_stream exTitledOnly = none ∧
    (select_best_audio_stream exGood).isSome = true :=
  ⟨rfl, rfl, rfl⟩

/-- C3 (amended): the selector returns the first response that is a
JSON object containing a `"title"` key; a response lacking that does
not terminate the search, and once such a titled response is obtained
no lower-priority mirror is consulted — even when the response contains
no audio candidate. -/
theorem claim_C3_amended (vid : List Char) (b : List Char) (f : Nat → Outcome)
    (rest : List MirrorInstance) (hv : vid.isEmpty = false) :
    (∀ d, fetch_from_piped vid ((b, f) :: rest) = some d → isValidData d = true) ∧
    (∀ d, tryInstance f = some d → fetch_from_piped vid ((b, f) :: rest) = some d) ∧
    (tryInstance f = none →
      fetch_from_piped vid ((b, f) :: rest) = fetch_from_piped vid rest) := by
  refine ⟨fun d hd => fetch_valid _ _ d hd, ?_, ?_⟩
  · intro d hd
    simp only [fetch_from_piped, hv, Bool.false_eq_true, if_false, fetchLoop, hd]
  · intro hd
    simp only [fetch_from_piped, hv, Bool.false_eq_true, if_false, fetchLoop, hd]

/-- C3 witness at a one-instance configuration. -/
theorem claim_C3_witness :
    ("dQw4w9WgXcQ".toList.isEmpty = false) ∧
    ((∀ d, fetch_from_piped ("dQw4w9WgXcQ".toList)
        [("https://a".toList, fun _ => Outcome.httpOk exGood)] = some d →
        isValidData d = true) ∧
     (∀ d, tryInstance (fun _ => Outcome.httpOk exGood) = some d →
        fetch_from_piped ("dQw4w9WgXcQ".toList)
          [("https://a".toList, fun _ => Outcome.httpOk exGood)] = some d) ∧
     (tryInstance (fun _ => Outcome.httpOk exGood) = none →
        fetch_from_piped ("dQw4w9WgXcQ".toList)
          [("https://a".toList, fun _ => Outcome.httpOk exGood)] =
        fetch_from_piped ("dQw4w9WgXcQ".toList) [])) :=
  ⟨rfl, claim_C3_amended ("dQw4w9WgXcQ".toList) ("https://a".toList)
    (fun _ => Outcome.httpOk exGood) [] rfl⟩

def exDataNoMeta : Json := .obj [("title", .str "T"),
  ("audioStreams", .arr [.obj [("url", .str "X")]])]

/-- C8 counterexample: a successful resolution whose raw response lacks
`duration` and every thumbnail key emits JSON `null` for those output
fields — the missing metadata is propagated as null, and no "unknown"
sentinel appears anywhere in the handler. -/
theorem claim_C8_counterexample :
    download_audio ("dQw4w9WgXcQ".toList)
      [("https://piped.video".toList, fun _ => Outcome.httpOk exDataNoMeta)] =
    HttpResult.ok
      { video_id := "dQw4w9WgXcQ".toList
      , title := .str "T"
      , duration := .null
      , thumbnail := .null
      , audio_url := .str "X"
      , bitrate := .null
      , mime_type := .null
      , source_instance := .null } := by rfl

/-- C8 (amended): when the raw response lacks the metadata keys (or
holds falsy values under them), the output carries `null` (Python
`None`) for duration and thumbnail and the empty string for title —
there is no "unknown" sentinel. -/
theorem claim_C8_amended (vid : List Char) (data audio : Json)
    (hd : data.get? "duration" = none)
    (ht1 : truthyGet data "title" = false)
    (ht2 : truthyGet data "videoTitle" = false)
    (hh1 : truthyGet data "thumbnailUrl" = false)
    (hh2 : truthyGet data "thumbnail" = false)
    (hh3 : data.get? "videoThumbnails" = none) :
    (normalizeFields vid data audio).duration = Json.null ∧
    (normalizeFields vid data audio).thumbnail = Json.null ∧
    (normalizeFields vid data audio).title = Json.str "" := by
  simp only [truthyGet, jgetD] at ht1 ht2 hh1 hh2
  refine ⟨?_, ?_, ?_⟩
  · simp [normalizeFields, jgetD, hd]
  · simp [normalizeFields, pyOrJ, jgetD, hh1, hh2, hh3]
  · simp [normalizeFields, pyOrJ, jgetD, ht1, ht2]

def exDataBare : Json := .obj [("title", .null)]

/-- C8 witness at a response with a present-but-null title and no other
metadata. -/
theorem claim_C8_witness :
    truthyGet exDataBare "title" = false ∧
    ((normalizeFields ("dQw4w9WgXcQ".toList) exDataBare Json.null).duration = Json.null ∧
     (normalizeFields ("dQw4w9WgXcQ".toList) exDataBare Json.null).thumbnail = Json.null ∧
     (normalizeFields ("dQw4w9WgXcQ".toList) exDataBare Json.null).title = Json.str "") :=
  ⟨rfl, claim_C8_amended ("dQw4w9WgXcQ".toList) exDataBare Json.null
    rfl rfl rfl rfl rfl rfl⟩

/-! ## The remaining claims: status mapping and id threading -/

/-- Every URL the fetch loop builds is `requestUrl base vid` for one of
the configured instances. -/
theorem urlsLoop_shape (vid : List Char) :
    ∀ insts u, u ∈ urlsRequested.urlsLoop vid insts →
      ∃ b f, (b, f) ∈ insts ∧ u = requestUrl b vid := by
  intro insts
  induction insts with
  | nil => intro u h; simp [urlsRequested.urlsLoop] at h
  | cons inst rest ih =>
    intro u h
    obtain ⟨b, f⟩ := inst
    simp only [urlsRequested.urlsLoop] at h
    rcases List.mem_append.mp h with h | h
    · exact ⟨b, f, List.mem_cons_self _ _, List.eq_of_mem_replicate h⟩
    · cases ht : tryInstance f with
      | some d => rw [ht] at h; simp at h
      | none =>
        rw [ht] at h
        obtain ⟨b', f', hm, hu⟩ := ih u h
        exact ⟨b', f', List.mem_cons_of_mem _ hm, hu⟩

theorem urlsRequested_shape (vid : List Char) (insts : List MirrorInstance)
    (u : List Char) (h : u ∈ urlsRequested vid insts) :
    ∃ b f, (b, f) ∈ insts ∧ u = requestUrl b vid := by
  simp only [urlsRequested] at h
  by_cases he : vid.isEmpty
  · rw [if_pos he] at h; simp at h
  · rw [if_neg he] at h; exact urlsLoop_shape vid insts u h

/-- C9: the extracted VideoId is threaded unchanged: percent-encoding
it is the identity (its characters are all unreserved), every GET URL
issued during the resolution is `{base}/api/v1/streams/{quote(vid)}`
for a configured base and ends in the encoded id, and on success the
output's `video_id` field equals the extracted id character for
character. -/
theorem claim_C9 (input : List Char) (insts : List MirrorInstance)
    (vid : List Char) (h : extract_video_id input = some vid) :
    pyQuote vid = vid ∧
    (∀ u ∈ urlsRequested vid insts, ∃ b f, (b, f) ∈ insts ∧
      u = requestUrl b vid ∧ pyQuote vid <:+ u) ∧
    (∀ body, download_audio input insts = HttpResult.ok body →
      body.video_id = vid) := by
  obtain ⟨hlen, hall⟩ := extract_shape input vid h
  have hq : pyQuote vid = vid := pyQuote_id vid hall
  refine ⟨hq, ?_, ?_⟩
  · intro u hu
    obtain ⟨b, f, hm, hurl⟩ := urlsRequested_shape vid insts u hu
    refine ⟨b, f, hm, hurl, ?_⟩
    rw [hurl]
    exact ⟨pyRstripSlash b ++ "/api/v1/streams/".toList, rfl⟩
  · intro body hb
    have hne := extract_nonempty input vid h
    simp only [download_audio, h, hne, Bool.false_eq_true, if_false] at hb
    cases hf : fetch_from_piped vid insts with
    | none => rw [hf] at hb; exact absurd hb (by simp)
    | some data =>
      rw [hf] at hb
      dsimp only at hb
      have hdt : jtruthy data = true :=
        validData_truthy data (fetch_valid vid insts data hf)
      simp only [hdt, Bool.not_true, Bool.false_eq_true, if_false] at hb
      cases hs : select_best_audio_stream data with
      | none => rw [hs] at hb; exact absurd hb (by simp)
      | some audio =>
        rw [hs] at hb
        have hat : jtruthy audio = true := select_truthy data audio hs
        simp only [hat, Bool.not_true, Bool.false_eq_true, if_false] at hb
        have hbody : normalizeFields vid data audio = body := by injection hb
        rw [← hbody]
        rfl

/-- C9 witness at the spec's end-to-end example input. -/
theorem claim_C9_witness :
    extract_video_id ("https://youtu.be/BddP6PYo2gs".toList) =
      some ("BddP6PYo2gs".toList) ∧
    (pyQuote ("BddP6PYo2gs".toList) = "BddP6PYo2gs".toList ∧
     (∀ u ∈ urlsRequested ("BddP6PYo2gs".toList)
        [("https://piped.video".toList, fun _ => Outcome.httpOk exGood)],
        ∃ b f, (b, f) ∈
            ([("https://piped.video".toList, fun _ => Outcome.httpOk exGood)] :
              List MirrorInstance) ∧
          u = requestUrl b ("BddP6PYo2gs".toList) ∧
          pyQuote ("BddP6PYo2gs".toList) <:+ u) ∧
     (∀ body, download_audio ("https://youtu.be/BddP6PYo2gs".toList)
        [("https://piped.video".toList, fun _ => Outcome.httpOk exGood)] =
          HttpResult.ok body → body.video_id = "BddP6PYo2gs".toList)) :=
  ⟨by decide, claim_C9 _ _ _ (by decide)⟩

/-! ## Exception-aware selection model

The definitions above totalize two Python error paths: `max` raises
`TypeError` on mixed-type scores (and treats booleans as integers), and
`.startswith` / `in` raise on non-string mimeTypes.  Those exceptions
are uncaught in `download_audio`, so FastAPI surfaces them as HTTP 500
— a fifth outcome.  The model below embeds the comparison and the
candidate predicates faithfully, with `none` standing for a raised
exception, and re-runs the selection and the route on top of them. -/

/-- Python string comparison: lexicographic by code point, a proper
prefix is smaller. -/
def charListLt : List Char → List Char → Bool
  | [], [] => false
  | [], _ :: _ => true
  | _ :: _, [] => false
  | a :: as, b :: bs =>
    if a < b then true else if b < a then false else charListLt as bs

mutual

/-- Python `==` on JSON values: booleans compare as the integers 0/1,
lists elementwise, dicts by keys and values (order-insensitive; dicts
produced by JSON parsing have unique keys), everything else only within
its own type.  `==` never raises on these types. -/
def pyEq : Json → Json → Bool
  | .null, b => match b with | .null => true | _ => false
  | .bool a, b =>
    match b with
    | .bool c => a == c
    | .num c => (if a then (1 : Int) else 0) == c
    | _ => false
  | .num a, b =>
    match b with
    | .num c => a == c
    | .bool c => a == (if c then (1 : Int) else 0)
    | _ => false
  | .str a, b => match b with | .str c => a == c | _ => false
  | .arr a, b => match b with | .arr c => pyEqList a c | _ => false
  | .obj a, b =>
    match b with
    | .obj c => a.length == c.length && pyEqFields a c
    | _ => false

def pyEqList : List Json → List Json → Bool
  | [], c => c.isEmpty
  | x :: xs, c =>
    match c with
    | y :: ys => pyEq x y && pyEqList xs ys
    | [] => false

def pyEqFields : List (String × Json) → List (String × Json) → Bool
  | [], _ => true
  | p :: t, c =>
    (match c.find? (fun q => q.1 == p.1) with
     | some q => pyEq p.2 q.2
     | none => false) && pyEqFields t c

end

mutual

/-- Python `a > b` on JSON values; `none` is a raised `TypeError`.
Numbers and booleans compare as integers, strings lexicographically,
lists elementwise (first `==`-unequal pair decides, then length);
`None`, dicts and every cross-type pair raise. -/
def pyGt : Json → Json → Option Bool
  | .num a, b =>
    match b with
    | .num c => some (decide (a > c))
    | .bool c => some (decide (a > (if c then 1 else 0)))
    | _ => none
  | .bool a, b =>
    match b with
    | .num c => some (decide ((if a then (1 : Int) else 0) > c))
    | .bool c => some (decide ((if a then (1 : Int) else 0) > (if c then 1 else 0)))
    | _ => none
  | .str a, b =>
    match b with
    | .str c => some (charListLt c.toList a.toList)
    | _ => none
  | .arr a, b =>
    match b with
    | .arr c => pyGtList a c
    | _ => none
  | .null, _ => none
  | .obj _, _ => none

def pyGtList : List Json → List Json → Option Bool
  | [], _ => some false
  | _ :: _, [] => some true
  | x :: xs, y :: ys =>
    if pyEq x y then pyGtList xs ys else pyGt x y

end

/-- The raw score value `s.get("bitrate") or s.get("contentLength")
or 0` that Python's `max` key returns; `jscore` is definitionally
`jnum` of it. -/
def rawScore (s : Json) : Json :=
  pyOrJ (jgetD s "bitrate") (pyOrJ (jgetD s "contentLength") (.num 0))

/-- `max(best :: l, key=score)` with the genuine comparison: `none` is
a propagated `TypeError`; the best is replaced only on a strictly
greater score, so ties and incomparable-free runs keep the first
maximal element. -/
def pyMaxByE : Json → List Json → Option Json
  | best, [] => some best
  | best, x :: t =>
    match pyGt (rawScore x) (rawScore best) with
    | none => none
    | some b => pyMaxByE (if b then x else best) t

/-- Strategy 1 with exceptions: the url-filter cannot raise, only the
`max` can. `some none` is fall-through, `some (some w)` a winner,
`none` a raise. -/
def strategy1E (data : Json) : Option (Option Json) :=
  let l := audioStreamsList data
  if l.isEmpty then some none
  else
    match l.filter cand1 with
    | [] => some none
    | x :: t =>
      match pyMaxByE x t with
      | none => none
      | some w => some (some w)

/-- Strategy-2 admission with exceptions: the `and`-chain guards first,
then `s.get("mimeType", "").startswith("audio")` — a present non-string
mimeType (including `null`) raises `AttributeError` (`none`); a missing
key defaults to `""`, which never starts with `"audio"`. -/
def cand2E (s : Json) : Option Bool :=
  if s.isObj && truthyGet s "url" then
    match s.get? "mimeType" with
    | some (.str m) => some ("audio".toList.isPrefixOf m.toList)
    | some _ => none
    | none => some false
  else some false

/-- A list comprehension whose predicate may raise: the raise
propagates out of the whole comprehension. -/
def filterE (p : Json → Option Bool) : List Json → Option (List Json)
  | [] => some []
  | x :: t =>
    match p x with
    | none => none
    | some b =>
      match filterE p t with
      | none => none
      | some r => some (if b then x :: r else r)

/-- Strategy 2 with exceptions, over the key loop. -/
def strategy2LoopE (data : Json) : List String → Option (Option Json)
  | [] => some none
  | k :: rest =>
    let l := listAt data k
    if l.isEmpty then strategy2LoopE data rest
    else
      match filterE cand2E l with
      | none => none
      | some [] => strategy2LoopE data rest
      | some (x :: t) =>
        match pyMaxByE x t with
        | none => none
        | some w => some (some w)

/-- `"audio" in v` for the `or`-defaulted mime value: substring on
strings, element membership on lists, key membership on dicts,
`TypeError` on (truthy) numbers and booleans; `null` is unreachable
because falsy values were already defaulted to `""`. -/
def pyInAudio : Json → Option Bool
  | .str m => some (containsAudio m.toList)
  | .arr l => some (l.any (fun e => pyEq e (.str "audio")))
  | .obj fs => some (fs.any (fun p => p.1 == "audio"))
  | .num _ => none
  | .bool _ => none
  | .null => none

/-- `is_audio_candidate` with exceptions: guards first, then
`"audio" in (x.get("mimeType", "") or "")`. -/
def is_audio_candidateE (x : Json) : Option Bool :=
  if x.isObj && truthyGet x "url" then
    pyInAudio (pyOrJ ((x.get? "mimeType").getD (.str "")) (.str ""))
  else some false

/-- A left-to-right search whose predicate may raise before later
elements are inspected. -/
def findE (p : Json → Option Bool) : List Json → Option (Option Json)
  | [] => some none
  | x :: t =>
    match p x with
    | none => none
    | some true => some (some x)
    | some false => findE p t

/-- Result of the strategy-3 loop: a raised exception, a found
candidate, or an exhausted stack (`return None`). -/
inductive ScanRes where
  | raise
  | found (v : Json)
  | exhausted

/-- The strategy-3 scan with the exception-aware candidate predicate;
the outer `none` is only fuel exhaustion, which `scanStackFuelE_irrel`
shows never happens for sufficient fuel.  As in `scanStackFuel`, a
candidate check that raises aborts before any observable effect, so
checking all values before pushing is the same function. -/
def scanStackFuelE : Nat → List Json → Option ScanRes
  | _, [] => some .exhausted
  | 0, _ :: _ => none
  | fuel + 1, node :: rest =>
    match findE is_audio_candidateE (childVals node) with
    | none => some .raise
    | some (some v) => some (.found v)
    | some none =>
      scanStackFuelE fuel (((childVals node).filter isContainer).reverse ++ rest)

/-- Any fuel at least the total stack size gives the same result. -/
theorem scanStackFuelE_irrel (fuel : Nat) :
    ∀ l fuel₂, Json.jsizeList l ≤ fuel → Json.jsizeList l ≤ fuel₂ →
      scanStackFuelE fuel l = scanStackFuelE fuel₂ l := by
  induction fuel using Nat.strong_induction_on with
  | _ fuel ih =>
    intro l fuel₂ h1 h2
    match l with
    | [] => cases fuel <;> cases fuel₂ <;> rfl
    | node :: rest =>
      have hpos : 1 ≤ Json.jsizeList (node :: rest) := by
        have := jsize_pos node
        simp [Json.jsizeList]; omega
      obtain ⟨f, rfl⟩ : ∃ f, fuel = f + 1 := ⟨fuel - 1, by omega⟩
      obtain ⟨f₂, rfl⟩ : ∃ f₂, fuel₂ = f₂ + 1 := ⟨fuel₂ - 1, by omega⟩
      simp only [scanStackFuelE]
      cases hfind : findE is_audio_candidateE (childVals node) with
      | none => rfl
      | some o =>
        cases o with
        | some v => rfl
        | none =>
          have hlt := scanStack_step_lt node rest
          exact ih f (by omega) _ f₂ (by omega) (by omega)

/-- The scan as run by the source, started with adequate fuel (the
fuel-out branch is unreachable by `scanStackFuelE_irrel`). -/
def scanStackE (l : List Json) : Option (Option Json) :=
  match scanStackFuelE (Json.jsizeList l) l with
  | some (.found v) => some (some v)
  | some .exhausted => some none
  | _ => none

/-- `select_best_audio_stream` with its genuine exception paths: the
three strategies in order, a raise anywhere propagating out. -/
def select_best_audio_streamE (data : Json) : Option (Option Json) :=
  match strategy1E data with
  | none => none
  | some (some r) => some (some r)
  | some none =>
    match strategy2LoopE data strategy2Keys with
    | none => none
    | some (some r) => some (some r)
    | some none => scanStackE [data]

/-- The five terminal outcomes of the route once uncaught exceptions
are modelled: 400, 502, 404, 500 (FastAPI's response to an uncaught
exception), or 200 with the canonical body. -/
inductive HttpResultE where
  | badRequest
  | badGateway
  | notFound
  | serverError
  | ok (body : ResolvedJson)

/-- `download_audio` over the exception-aware selection: the selection
runs outside any `try`, so a raise surfaces as HTTP 500. -/
def download_audioE (url : List Char) (insts : List MirrorInstance) : HttpResultE :=
  match extract_video_id url with
  | none => .badRequest
  | some vid =>
    if vid.isEmpty then .badRequest
    else
      match fetch_from_piped vid insts with
      | none => .badGateway
      | some data =>
        if !jtruthy data then .badGateway
        else
          match select_best_audio_streamE data with
          | none => .serverError
          | some none => .notFound
          | some (some audio) =>
            if !jtruthy audio then .notFound
            else .ok (normalizeFields vid data audio)

/-! ## What the exception-aware selection can return -/

/-- The exception-aware fold's winner is one of the inputs. -/
theorem pyMaxByE_mem :
    ∀ (l : List Json) (best w : Json), pyMaxByE best l = some w →
      w ∈ best :: l := by
  intro l
  induction l with
  | nil =>
    intro best w h
    have : best = w := by injection h
    exact this ▸ List.mem_cons_self _ _
  | cons x t ih =>
    intro best w h
    simp only [pyMaxByE] at h
    cases hc : pyGt (rawScore x) (rawScore best) with
    | none => rw [hc] at h; exact absurd h (by simp)
    | some b =>
      rw [hc] at h
      dsimp only at h
      rcases List.mem_cons.mp (ih _ w h) with he | hm
      · by_cases hb : b = true
        · rw [hb] at he; simp only [if_true] at he
          exact he ▸ List.mem_cons_of_mem _ (List.mem_cons_self _ _)
        · rw [Bool.eq_false_iff.mpr hb] at he
          simp only [Bool.false_eq_true, if_false] at he
          exact he ▸ List.mem_cons_self _ _
      · exact List.mem_cons_of_mem _ (List.mem_cons_of_mem _ hm)

/-- A found element passed its (non-raising) check. -/
theorem findE_some (p : Json → Option Bool) :
    ∀ l v, findE p l = some (some v) → p v = some true := by
  intro l
  induction l with
  | nil => intro v h; simp [findE] at h
  | cons x t ih =>
    intro v h
    simp only [findE] at h
    cases hp : p x with
    | none => rw [hp] at h; exact absurd h (by simp)
    | some b =>
      rw [hp] at h
      cases b with
      | true =>
        dsimp only at h
        have : x = v := by
          have := h
          injection this with h'
          injection h'
        exact this ▸ hp
      | false => dsimp only at h; exact ih v h

/-- Every element a non-raising comprehension keeps passed its check. -/
theorem filterE_mem (p : Json → Option Bool) :
    ∀ l r, filterE p l = some r → ∀ x ∈ r, p x = some true := by
  intro l
  induction l with
  | nil =>
    intro r h x hx
    simp only [filterE] at h
    have : ([] : List Json) = r := by injection h
    rw [← this] at hx
    exact absurd hx (by simp)
  | cons y t ih =>
    intro r h x hx
    simp only [filterE] at h
    cases hp : p y with
    | none => rw [hp] at h; exact absurd h (by simp)
    | some b =>
      rw [hp] at h
      cases hf : filterE p t with
      | none => rw [hf] at h; exact absurd h (by simp)
      | some r' =>
        rw [hf] at h
        dsimp only at h
        have hr : (if b then y :: r' else r') = r := by injection h
        cases b with
        | true =>
          simp only [if_true] at hr
          rw [← hr] at hx
          rcases List.mem_cons.mp hx with rfl | hm
          · exact hp
          · exact ih r' hf x hm
        | false =>
          simp only [Bool.false_eq_true, if_false] at hr
          rw [← hr] at hx
          exact ih r' hf x hx

/-- An entry accepted by the exception-aware strategy-2 check is a dict
with a truthy url. -/
theorem cand2E_true (s : Json) (h : cand2E s = some true) :
    Json.isObj s = true ∧ truthyGet s "url" = true := by
  simp only [cand2E] at h
  by_cases hg : (s.isObj && truthyGet s "url") = true
  · exact Bool.and_eq_true_iff.mp hg
  · rw [if_neg hg] at h
    exact absurd (by injection h : false = true) (by simp)

/-- An entry accepted by the exception-aware strategy-3 check is a dict
with a truthy url. -/
theorem is_audio_candidateE_true (x : Json) (h : is_audio_candidateE x = some true) :
    Json.isObj x = true ∧ truthyGet x "url" = true := by
  simp only [is_audio_candidateE] at h
  by_cases hg : (x.isObj && truthyGet x "url") = true
  · exact Bool.and_eq_true_iff.mp hg
  · rw [if_neg hg] at h
    exact absurd (by injection h : false = true) (by simp)

/-- A strategy-1 winner under exceptions comes from the url-filtered
candidate list. -/
theorem strategy1E_some (data w : Json) (h : strategy1E data = some (some w)) :
    ∃ x t, (audioStreamsList data).filter cand1 = x :: t ∧
      pyMaxByE x t = some w := by
  simp only [strategy1E] at h
  by_cases he : (audioStreamsList data).isEmpty
  · rw [if_pos he] at h
    exact absurd (by injection h : none = some w) (by simp)
  · rw [if_neg he] at h
    cases hf : (audioStreamsList data).filter cand1 with
    | nil =>
      rw [hf] at h
      exact absurd (by injection h : none = some w) (by simp)
    | cons x t =>
      rw [hf] at h
      dsimp only at h
      cases hm : pyMaxByE x t with
      | none => rw [hm] at h; exact absurd h (by simp)
      | some w' =>
        rw [hm] at h
        have : w' = w := by
          have := h
          injection this with h'
          injection h'
        exact ⟨x, t, rfl, this ▸ hm⟩

theorem strategy1E_cand (data w : Json) (h : strategy1E data = some (some w)) :
    cand1 w = true := by
  obtain ⟨x, t, hf, hm⟩ := strategy1E_some data w h
  have : w ∈ (audioStreamsList data).filter cand1 := hf ▸ pyMaxByE_mem t x w hm
  exact (List.mem_filter.mp this).2

theorem strategy2LoopE_cand (data w : Json) :
    ∀ keys, strategy2LoopE data keys = some (some w) →
      cand2E w = some true := by
  intro keys
  induction keys with
  | nil => intro h; simp [strategy2LoopE] at h
  | cons k rest ih =>
    intro h
    simp only [strategy2LoopE] at h
    by_cases he : (listAt data k).isEmpty
    · rw [if_pos he] at h; exact ih h
    · rw [if_neg he] at h
      cases hf : filterE cand2E (listAt data k) with
      | none => rw [hf] at h; exact absurd h (by simp)
      | some r =>
        rw [hf] at h
        cases r with
        | nil => exact ih h
        | cons x t =>
          dsimp only at h
          cases hm : pyMaxByE x t with
          | none => rw [hm] at h; exact absurd h (by simp)
          | some w' =>
            rw [hm] at h
            have hw : w' = w := by
              have := h
              injection this with h'
              injection h'
            exact filterE_mem cand2E _ _ hf w
              (hw ▸ pyMaxByE_mem t x w' hm)

theorem scanStackFuelE_found (v : Json) :
    ∀ fuel stack, scanStackFuelE fuel stack = some (ScanRes.found v) →
      is_audio_candidateE v = some true := by
  intro fuel
  induction fuel with
  | zero =>
    intro stack h
    cases stack with
    | nil => exact absurd (by injection h : ScanRes.exhausted = ScanRes.found v) (by simp)
    | cons a b => simp [scanStackFuelE] at h
  | succ f ih =>
    intro stack h
    cases stack with
    | nil => exact absurd (by injection h : ScanRes.exhausted = ScanRes.found v) (by simp)
    | cons node rest =>
      simp only [scanStackFuelE] at h
      cases hf : findE is_audio_candidateE (childVals node) with
      | none =>
        rw [hf] at h
        exact absurd (by injection h : ScanRes.raise = ScanRes.found v) (by simp)
      | some o =>
        rw [hf] at h
        cases o with
        | some v' =>
          dsimp only at h
          have : ScanRes.found v' = ScanRes.found v := by injection h
          have hv : v' = v := by injection this
          exact hv ▸ findE_some is_audio_candidateE _ v' hf
        | none => dsimp only at h; exact ih _ h

/-- Whatever the exception-aware selection returns as a winner is a
truthy dict, so the route's `if not audio` guard stays dead. -/
theorem selectE_truthy (data audio : Json)
    (h : select_best_audio_streamE data = some (some audio)) :
    jtruthy audio = true := by
  simp only [select_best_audio_streamE] at h
  cases h1 : strategy1E data with
  | none => rw [h1] at h; exact absurd h (by simp)
  | some o1 =>
    rw [h1] at h
    cases o1 with
    | some r =>
      dsimp only at h
      have hr : r = audio := by
        have := h
        injection this with h'
        injection h'
      have hc := strategy1E_cand data r h1
      simp only [cand1, Bool.and_eq_true] at hc
      exact hr ▸ truthy_of_obj_get r "url" hc.1 hc.2
    | none =>
      dsimp only at h
      cases h2 : strategy2LoopE data strategy2Keys with
      | none => rw [h2] at h; exact absurd h (by simp)
      | some o2 =>
        rw [h2] at h
        cases o2 with
        | some r =>
          dsimp only at h
          have hr : r = audio := by
            have := h
            injection this with h'
            injection h'
          obtain ⟨ho, hu⟩ := cand2E_true r (strategy2LoopE_cand data r _ h2)
          exact hr ▸ truthy_of_obj_get r "url" ho hu
        | none =>
          dsimp only at h
          simp only [scanStackE] at h
          cases h3 : scanStackFuelE (Json.jsizeList [data]) [data] with
          | none => rw [h3] at h; exact absurd h (by simp)
          | some sres =>
            rw [h3] at h
            cases sres with
            | raise => exact absurd h (by simp)
            | exhausted => exact absurd (by injection h : none = some audio) (by simp)
            | found v =>
              dsimp only at h
              have hv : v = audio := by
                have := h
                injection this with h'
                injection h'
              obtain ⟨ho, hu⟩ :=
                is_audio_candidateE_true v (scanStackFuelE_found v _ _ h3)
              exact hv ▸ truthy_of_obj_get v "url" ho hu

/-! ## Agreement of the two models on numeric scores -/

/-- A score field is numeric-or-absent. -/
def numField : Option Json → Bool
  | none => true
  | some (.num _) => true
  | some _ => false

/-- Candidates whose `bitrate` and `contentLength` are numbers when
present: on these, Python's comparison is total and the totalized model
agrees with the exception-aware one. -/
def numericScored (s : Json) : Bool :=
  numField (s.get? "bitrate") && numField (s.get? "contentLength")

theorem chain2_num (c : Json) (h2 : numField (c.get? "contentLength") = true) :
    ∃ n, pyOrJ (jgetD c "contentLength") (.num 0) = Json.num n := by
  cases hc : c.get? "contentLength" with
  | none => exact ⟨0, by simp [pyOrJ, jgetD, hc, jtruthy]⟩
  | some v =>
    rw [hc] at h2
    cases v with
    | num m =>
      by_cases hm : jtruthy (Json.num m) = true
      · exact ⟨m, by simp [pyOrJ, jgetD, hc, hm]⟩
      · exact ⟨0, by simp [pyOrJ, jgetD, hc, hm]⟩
    | null => simp [numField] at h2
    | bool b => simp [numField] at h2
    | str s => simp [numField] at h2
    | arr l => simp [numField] at h2
    | obj fs => simp [numField] at h2

theorem rawScore_num (c : Json) (h : numericScored c = true) :
    ∃ n, rawScore c = Json.num n := by
  obtain ⟨h1, h2⟩ := Bool.and_eq_true_iff.mp h
  obtain ⟨n, hn⟩ := chain2_num c h2
  simp only [rawScore]
  cases hb : c.get? "bitrate" with
  | none => exact ⟨n, by rw [hn]; simp [pyOrJ, jgetD, hb, jtruthy]⟩
  | some v =>
    rw [hb] at h1
    cases v with
    | num k =>
      by_cases hk : jtruthy (Json.num k) = true
      · exact ⟨k, by simp [pyOrJ, jgetD, hb, hk]⟩
      · exact ⟨n, by rw [hn]; simp [pyOrJ, jgetD, hb, hk]⟩
    | null => simp [numField] at h1
    | bool b => simp [numField] at h1
    | str s => simp [numField] at h1
    | arr l => simp [numField] at h1
    | obj fs => simp [numField] at h1

/-- On numeric-or-absent score fields the raw score value is exactly
the number the totalized score computes. -/
theorem rawScore_eq_num (c : Json) (h : numericScored c = true) :
    rawScore c = Json.num (jscore c) := by
  obtain ⟨n, hn⟩ := rawScore_num c h
  have hj : jscore c = n := by
    show jnum (rawScore c) = n
    rw [hn]
    rfl
  rw [hn, hj]

/-- On numeric-or-absent score fields, the exception-aware `max` never
raises and picks exactly the totalized winner. -/
theorem pyMaxByE_numeric :
    ∀ (l : List Json) (best : Json), numericScored best = true →
      (∀ c ∈ l, numericScored c = true) →
      pyMaxByE best l = some (pyMaxBy jscore best l) := by
  intro l
  induction l with
  | nil => intro best _ _; rfl
  | cons x t ih =>
    intro best hb hl
    have hx : numericScored x = true := hl x (List.mem_cons_self _ _)
    have hgt : pyGt (rawScore x) (rawScore best) =
        some (decide (jscore x > jscore best)) := by
      rw [rawScore_eq_num x hx, rawScore_eq_num best hb]
      rfl
    simp only [pyMaxByE, hgt]
    show pyMaxByE (if decide (jscore x > jscore best) = true then x else best) t =
      some (pyMaxBy jscore (if jscore x > jscore best then x else best) t)
    by_cases hc : jscore x > jscore best
    · rw [if_pos (decide_eq_true hc), if_pos hc]
      exact ih x hx (fun c hcm => hl c (List.mem_cons_of_mem _ hcm))
    · rw [if_neg (fun hd => hc (of_decide_eq_true hd)), if_neg hc]
      exact ih best hb (fun c hcm => hl c (List.mem_cons_of_mem _ hcm))

/-! ## C1 and C2 over the exception-aware model -/

def exMixedScores : Json := .obj [("title", .str "T"),
  ("audioStreams", .arr
    [.obj [("url", .str "a"), ("bitrate", .str "high")],
     .obj [("url", .str "b"), ("bitrate", .num 128)]])]

/-- C1 counterexample: a titled mirror response whose two audio
candidates carry a string and a numeric bitrate makes `max` raise
`TypeError` inside the route, outside any `try`: the uncaught exception
surfaces as HTTP 500 — a fifth outcome beyond the claim's four
(400/502/404/success). -/
theorem claim_C1_counterexample :
    download_audioE ("dQw4w9WgXcQ".toList)
      [("https://a".toList, fun _ => Outcome.httpOk exMixedScores)] =
    HttpResultE.serverError := by rfl

/-- C1 (amended): extraction failure → 400; every mirror exhausted
without a usable response → 502; a response obtained but no audio
candidate extractable → 404; a raising score comparison or mimeType
inspection during selection → uncaught exception, surfaced as HTTP 500;
otherwise success carrying the canonical JSON object.  Exactly one of
these five outcomes occurs per call, and no partial result is ever
returned. -/
theorem claim_C1_amended (url : List Char) (insts : List MirrorInstance) :
    (extract_video_id url = none →
      download_audioE url insts = HttpResultE.badRequest) ∧
    (∀ vid, extract_video_id url = some vid →
      fetch_from_piped vid insts = none →
      download_audioE url insts = HttpResultE.badGateway) ∧
    (∀ vid data, extract_video_id url = some vid →
      fetch_from_piped vid insts = some data →
      select_best_audio_streamE data = some none →
      download_audioE url insts = HttpResultE.notFound) ∧
    (∀ vid data, extract_video_id url = some vid →
      fetch_from_piped vid insts = some data →
      select_best_audio_streamE data = none →
      download_audioE url insts = HttpResultE.serverError) ∧
    (∀ vid data audio, extract_video_id url = some vid →
      fetch_from_piped vid insts = some data →
      select_best_audio_streamE data = some (some audio) →
      download_audioE url insts = HttpResultE.ok (normalizeFields vid data audio)) ∧
    (download_audioE url insts = HttpResultE.badRequest ∨
     download_audioE url insts = HttpResultE.badGateway ∨
     download_audioE url insts = HttpResultE.notFound ∨
     download_audioE url insts = HttpResultE.serverError ∨
     ∃ body, download_audioE url insts = HttpResultE.ok body) := by
  have hbr : extract_video_id url = none →
      download_audioE url insts = HttpResultE.badRequest := by
    intro h
    simp only [download_audioE, h]
  have hbg : ∀ vid, extract_video_id url = some vid →
      fetch_from_piped vid insts = none →
      download_audioE url insts = HttpResultE.badGateway := by
    intro vid hx hf
    simp only [download_audioE, hx, extract_nonempty url vid hx,
      Bool.false_eq_true, if_false, hf]
  have hnf : ∀ vid data, extract_video_id url = some vid →
      fetch_from_piped vid insts = some data →
      select_best_audio_streamE data = some none →
      download_audioE url insts = HttpResultE.notFound := by
    intro vid data hx hf hs
    have hdt : jtruthy data = true :=
      validData_truthy data (fetch_valid vid insts data hf)
    simp only [download_audioE, hx, extract_nonempty url vid hx,
      Bool.false_eq_true, if_false, hf, hdt, Bool.not_true, hs]
  have hse : ∀ vid data, extract_video_id url = some vid →
      fetch_from_piped vid insts = some data →
      select_best_audio_streamE data = none →
      download_audioE url insts = HttpResultE.serverError := by
    intro vid data hx hf hs
    have hdt : jtruthy data = true :=
      validData_truthy data (fetch_valid vid insts data hf)
    simp only [download_audioE, hx, extract_nonempty url vid hx,
      Bool.false_eq_true, if_false, hf, hdt, Bool.not_true, hs]
  have hok : ∀ vid data audio, extract_video_id url = some vid →
      fetch_from_piped vid insts = some data →
      select_best_audio_streamE data = some (some audio) →
      download_audioE url insts = HttpResultE.ok (normalizeFields vid data audio) := by
    intro vid data audio hx hf hs
    have hdt : jtruthy data = true :=
      validData_truthy data (fetch_valid vid insts data hf)
    have hat : jtruthy audio = true := selectE_truthy data audio hs
    simp only [download_audioE, hx, extract_nonempty url vid hx,
      Bool.false_eq_true, if_false, hf, hdt, Bool.not_true, hs, hat]
  refine ⟨hbr, hbg, hnf, hse, hok, ?_⟩
  cases hx : extract_video_id url with
  | none => exact Or.inl (hbr hx)
  | some vid =>
    cases hf : fetch_from_piped vid insts with
    | none => exact Or.inr (Or.inl (hbg vid hx hf))
    | some data =>
      cases hs : select_best_audio_streamE data with
      | none => exact Or.inr (Or.inr (Or.inr (Or.inl (hse vid data hx hf hs))))
      | some o =>
        cases o with
        | none => exact Or.inr (Or.inr (Or.inl (hnf vid data hx hf hs)))
        | some audio =>
          exact Or.inr (Or.inr (Or.inr (Or.inr
            ⟨_, hok vid data audio hx hf hs⟩)))

/-- C1 witness: the empty input yields extraction failure and HTTP 400. -/
theorem claim_C1_witness :
    extract_video_id ([] : List Char) = none ∧
    download_audioE [] [] = HttpResultE.badRequest :=
  ⟨rfl, (claim_C1_amended [] []).1 rfl⟩

/-- C2 counterexample: with a present-but-zero bitrate next to a large
contentLength, the source scores that entry by its contentLength and
picks it, although it does not maximize the claim's score ("bitrate
when present"): the other candidate's claimed score is strictly
higher. -/
theorem claim_C2_counterexample :
    select_best_audio_streamE exDoc0 = some (some exA0) ∧
    exB64 ∈ (audioStreamsList exDoc0).filter cand1 ∧
    specScore exA0 < specScore exB64 := by
  refine ⟨rfl, ?_, by decide⟩
  exact List.Mem.tail _ (List.Mem.head _)

/-- C2 (amended): over candidate sets whose `bitrate`/`contentLength`
fields are numeric where present — the only sets on which Python's
score comparison is total — the winner (in both the exception-aware
and the totalized model, which provably agree there) is the
first-encountered candidate maximizing the source's score: truthy
(nonzero) `bitrate`, else truthy `contentLength`, else zero.  Every
earlier candidate scores strictly lower, no candidate scores higher,
and the choice is a pure function of the document.  Outside this
numeric fragment, booleans compare as the integers 0/1 and mixed-type
scores abort the resolution with an uncaught TypeError instead of
choosing a winner. -/
theorem claim_C2_amended (data : Json) (x : Json) (t : List Json)
    (h : (audioStreamsList data).filter cand1 = x :: t)
    (hnum : ∀ c ∈ x :: t, numericScored c = true) :
    select_best_audio_streamE data = some (some (pyMaxBy jscore x t)) ∧
    select_best_audio_stream data = some (pyMaxBy jscore x t) ∧
    ∃ l1 l2, x :: t = l1 ++ pyMaxBy jscore x t :: l2 ∧
      (∀ c ∈ l1, jscore c < jscore (pyMaxBy jscore x t)) ∧
      (∀ c ∈ x :: t, jscore c ≤ jscore (pyMaxBy jscore x t)) := by
  have hne : (audioStreamsList data).isEmpty = false := by
    cases hl : audioStreamsList data with
    | nil => rw [hl] at h; simp at h
    | cons y u => rfl
  have hmE : pyMaxByE x t = some (pyMaxBy jscore x t) :=
    pyMaxByE_numeric t x (hnum x (List.mem_cons_self _ _))
      (fun c hc => hnum c (List.mem_cons_of_mem _ hc))
  have hs1E : strategy1E data = some (some (pyMaxBy jscore x t)) := by
    simp only [strategy1E, hne, Bool.false_eq_true, if_false, h, hmE]
  have hs1 : strategy1 data = some (pyMaxBy jscore x t) := by
    simp only [strategy1, hne, Bool.false_eq_true, if_false, h]
  refine ⟨by simp only [select_best_audio_streamE, hs1E],
    by simp only [select_best_audio_stream, hs1], ?_⟩
  obtain ⟨l1, l2, hdec, hlt⟩ := pyMaxBy_first jscore t x
  obtain ⟨hb, hall⟩ := pyMaxBy_le jscore t x
  refine ⟨l1, l2, hdec, hlt, ?_⟩
  intro c hc
  rcases List.mem_cons.mp hc with rfl | hm
  · exact hb
  · exact hall c hm

/-- C2 witness at the spec's concrete example — bitrates 64 and 128 —
where all readings agree: the 128 entry wins. -/
theorem claim_C2_witness :
    (audioStreamsList exDoc64).filter cand1 = exA64 :: [exB128] ∧
    (select_best_audio_streamE exDoc64 =
        some (some (pyMaxBy jscore exA64 [exB128])) ∧
      select_best_audio_stream exDoc64 = some (pyMaxBy jscore exA64 [exB128]) ∧
      ∃ l1 l2, exA64 :: [exB128] = l1 ++ pyMaxBy jscore exA64 [exB128] :: l2 ∧
        (∀ c ∈ l1, jscore c < jscore (pyMaxBy jscore exA64 [exB128])) ∧
        (∀ c ∈ exA64 :: [exB128],
          jscore c ≤ jscore (pyMaxBy jscore exA64 [exB128]))) ∧
    pyMaxBy jscore exA64 [exB128] = exB128 :=
  ⟨rfl,
   claim_C2_amended exDoc64 exA64 [exB128] rfl
     (by
       intro c hc
       rcases List.mem_cons.mp hc with rfl | hc
       · rfl
       · rcases List.mem_cons.mp hc with rfl | hc
         · rfl
         · cases hc),
   rfl⟩
